import Mathlib

/-!
# The query-execution coordinator (`exporter`) of VAST

A shallow embedding of `src/libvast/src/system/exporter.cpp`.

* The actor state (`exporter_state`, `query_status`) becomes a record that is passed
  explicitly; every message handler is a function from the state to an `outcome`:
  the new state, the messages sent, and how the handler ended (`returned`, `skipped`
  for `caf::skip`, or `aborted` at a failed `VAST_ASSERT`).
* `requested` is a 64-bit counter that is compared against the sentinel `max_events`
  and can be driven to the top of its range by the consumer, so its addition is
  modelled modulo `2 ^ 64`.  The other counters count rows held in memory, partitions
  or archive round-trips and are natural numbers; every subtraction in the source is
  guarded by a comparison or an assertion that makes it exact.
* Wall-clock values (`start`, `runtime`) and log output are not modelled.
* The exit and down handlers set in the actor's constructor are `on_exit` and
  `on_down`; the metrics they emit through `report_statistics` are effects that carry
  the reported numbers.
* Assertions are checked: a handler that reaches a failing `VAST_ASSERT` ends there.
* `world` adds to the coordinator the history of a run and what Index and Archive
  still owe it, so that assumptions on the collaborators can be stated as contracts
  on the next message (`archive_contract`, `index_contract`, `protocol`).
-/

namespace vast

/-! ## Batches and selections -/

/-- Modelled from the spec: `max_events` (declared outside `exporter.cpp`) is the
unbounded sentinel, the largest 64-bit value. -/
def max_events : Nat := 2 ^ 64 - 1

/-- Modelled from the spec: a selection (`ids`) is a bitmap over row identifiers; it is
represented by the set of its set bits. -/
abbrev ids := Finset Nat

/-- Modelled from the spec: `rank` is the population count of a selection. -/
def rank (xs : ids) : Nat := xs.card

/-- Modelled from the spec: the encoding tag of a batch; `none` is the tag of the
default-constructed batch, which holds no rows. -/
inductive table_slice_encoding where
  | none
  | arrow
  | msgpack
deriving DecidableEq, Repr

/-- Modelled from the spec: a batch is an immutable ordered sequence of rows with a
schema tag (`layout`); `offset` is the identifier of its first row.  `invalid` is the
default-constructed batch `table_slice{}`. -/
inductive table_slice where
  | invalid
  | batch (msgpack : Bool) (layout : Nat) (offset : Nat) (data : List Nat)
deriving DecidableEq, Repr

/-- Encoding tag of a batch. -/
def table_slice.encoding : table_slice → table_slice_encoding
  | .invalid => .none
  | .batch true _ _ _ => .msgpack
  | .batch false _ _ _ => .arrow

/-- Schema tag of a batch. -/
def table_slice.layout : table_slice → Nat
  | .invalid => 0
  | .batch _ l _ _ => l

/-- Identifier of the first row of a batch. -/
def table_slice.offset : table_slice → Nat
  | .invalid => 0
  | .batch _ _ o _ => o

/-- Rows of a batch, in order. -/
def table_slice.data : table_slice → List Nat
  | .invalid => []
  | .batch _ _ _ d => d

/-- Row count of a batch. -/
def table_slice.rows (s : table_slice) : Nat := s.data.length

/-- Modelled from the spec: splitting a batch at row `k` yields two batches whose row
counts are `k` and `rows - k` and whose concatenation reproduces the rows in order. -/
def split : table_slice → Nat → table_slice × table_slice
  | .invalid, _ => (.invalid, .invalid)
  | .batch m l o d, k => (.batch m l o (d.take k), .batch m l (o + k) (d.drop k))

/-- Rows of a batch whose identifier (counted from `id`) is set in the selection. -/
def select_rows (sel : ids) : Nat → List Nat → List Nat
  | _, [] => []
  | id, r :: rs =>
    if id ∈ sel then r :: select_rows sel (id + 1) rs else select_rows sel (id + 1) rs

/-- The sub-batch of the rows that a selection marks. -/
def table_slice.filter (sel : ids) : table_slice → table_slice
  | .invalid => .invalid
  | .batch m l o d => .batch m l o (select_rows sel o d)

/-- Modelled from the spec: `select` appends the filtered sub-batch (the rows of the
batch that the selection marks, in batch order) to the Result Buffer. -/
def select (results : List table_slice) (s : table_slice) (sel : ids) :
    List table_slice :=
  results ++ [s.filter sel]

/-- Sum of the row counts of the batches of a buffer. -/
def total_rows : List table_slice → Nat
  | [] => 0
  | s :: rest => s.rows + total_rows rest

/-- All rows of a buffer, in FIFO order. -/
def all_rows : List table_slice → List Nat
  | [] => []
  | s :: rest => s.data ++ all_rows rest

/-! ## State -/

/-- Modelled from the spec: the query options; a query has a historical component, a
continuous component, or both. -/
structure query_options where
  historical : Bool
  continuous : Bool
deriving DecidableEq, Repr

def has_historical_option (o : query_options) : Bool := o.historical

def has_continuous_option (o : query_options) : Bool := o.continuous

/-- Modelled from the spec: the Query Progress Ledger (`query_status`), all counters
starting at zero. -/
structure query_status where
  expected : Nat := 0
  scheduled : Nat := 0
  received : Nat := 0
  lookups_issued : Nat := 0
  lookups_complete : Nat := 0
  processed : Nat := 0
  shipped : Nat := 0
  requested : Nat := 0
  cached : Nat := 0
deriving DecidableEq, Repr

/-- Modelled from the spec: the state of one coordinator (`exporter_state`).  Actor
handles are `none` until registered; expressions, checkers and schemas are tokens. -/
structure exporter_state where
  options : query_options
  expr : Nat
  checkers : List (Nat × Nat) := []
  results : List table_slice := []
  hits : ids := ∅
  query : query_status := {}
  id : Nat := 0
  accountant : Option Nat := none
  archive : Option Nat := none
  index : Option Nat := none
  sink : Option Nat := none
  statistics_subscriber : Option Nat := none
deriving DecidableEq

/-- The predicate-compilation primitives, which live outside `exporter.cpp`:
`tailor expr layout` specialises the query predicate to a schema (or fails with an
error) and `evaluate checker slice` yields the selection of matching rows. -/
structure primitives where
  tailor : Nat → Nat → Except Nat Nat
  evaluate : Nat → table_slice → ids

/-- Reason carried by an exit message. -/
inductive exit_reason where
  | normal
  | error (e : Nat)
  /-- Source: `caf::exit_reason::kill` -/
  | kill
deriving DecidableEq, Repr

/-- Messages the coordinator sends. -/
inductive effect where
  /-- Source: `anon_send(st.sink, slice)` -/
  | ship (slice : table_slice)
  /-- Source: `send(st.index, st.id, n)` -/
  | index_request (id : Nat) (n : Nat)
  /-- Source: `request(index, expr)` -/
  | index_query (expr : Nat)
  /-- Source: `send(st.archive, hits, self)` -/
  | archive_lookup (hits : ids)
  /-- Source: `send(st.archive, atom::exporter_v, self)` -/
  | archive_register
  /-- Source: `send(accountant, atom::announce_v, name)` -/
  | announce
  /-- Source: `monitor(handle)` -/
  | monitor (handle : Option Nat)
  /-- The report of the hit-set handler: whether `exporter.hits.first` is included, and
  `exporter.hits.count` -/
  | report_hits (first : Bool) (count : Nat)
  /-- Source: `send(accountant, "exporter.hits.runtime", runtime)` -/
  | report_runtime
  /-- Source: `send_exit(self, reason)` -/
  | exit_self (reason : exit_reason)
  /-- Source: `anon_send(st.statistics_subscriber, st.name, st.query)` -/
  | statistics (query : query_status)
  /-- The report of `report_statistics` to the accountant: the values sent as
  `exporter.hits`, `exporter.processed`, `exporter.results` and `exporter.shipped`
  (the floating-point selectivity and the runtime are left out) -/
  | report (hits : Nat) (processed : Nat) (results : Nat) (shipped : Nat)
  /-- Source: `send<caf::message_priority::high>(st.index, st.id, uint32_t 0)` -/
  | index_stop (id : Nat)
  /-- Source: `quit(reason)` -/
  | quit (reason : exit_reason)
deriving DecidableEq

/-- The assertions (`VAST_ASSERT`) of `exporter.cpp`. -/
inductive assertion_site where
  /-- Source: `!st.results.empty()` in `ship_results` -/
  | results_nonempty
  /-- Source: `first.encoding() != table_slice_encoding::none` -/
  | first_encoding
  /-- Source: `second.encoding() != table_slice_encoding::none` -/
  | second_encoding
  /-- Source: `first.rows() == st.query.requested` -/
  | first_rows
  /-- Source: `rows <= st.query.cached` -/
  | rows_le_cached
  /-- Source: `st.query.lookups_issued == st.query.lookups_complete` -/
  | lookups_equal
  /-- Source: `st.query.received < st.query.expected` -/
  | received_lt_expected
  /-- Source: `slice.encoding() != table_slice_encoding::none` in `handle_batch` -/
  | slice_encoding
  /-- Source: `self->state.query.requested < max_events` -/
  | requested_lt_max
  /-- Source: `self->current_sender() == self->state.archive` -/
  | sender_is_archive
  /-- Source: `!finished(self->state.query)` -/
  | not_finished
  /-- Source: `rank(self->state.hits & hits) == 0` -/
  | hits_disjoint
deriving DecidableEq, Repr

/-- How a handler (or helper) ended. `diverged` is the loop bound of the model running
out; `ship_results_never_diverges` shows it does not occur. -/
inductive disposition where
  | returned
  | skipped
  | aborted (site : assertion_site)
  | diverged
deriving DecidableEq, Repr

/-- Result of running a handler: the state it leaves, the messages it sent, in order,
and how it ended. -/
structure outcome where
  st : exporter_state
  out : List effect
  disp : disposition
deriving DecidableEq

/-- Sequencing: run `f` on the state left by `r` unless `r` did not return. -/
def outcome.and_then (r : outcome) (f : exporter_state → outcome) : outcome :=
  match r.disp with
  | .returned =>
    let r2 := f r.st
    { r2 with out := r.out ++ r2.out }
  | _ => r

/-! ## Helpers of `exporter.cpp` -/

def finished (qs : query_status) : Bool :=
  qs.received == qs.expected && qs.lookups_issued == qs.lookups_complete

/-- Lines 51-65 of `ship_results`: fetch the next batch, either the whole head of the
buffer or its first `requested` rows. -/
def fetch_next (st : exporter_state) :
    Except assertion_site (table_slice × exporter_state) :=
  match st.results with
  | [] => .error .results_nonempty
  | head :: rest =>
    if head.rows ≤ st.query.requested then
      .ok (head, { st with results := rest })
    else
      let p := split head st.query.requested
      if p.1.encoding = .none then .error .first_encoding
      else if p.2.encoding = .none then .error .second_encoding
      else if p.1.rows ≠ st.query.requested then .error .first_rows
      else .ok (p.1, { st with results := p.2 :: rest })

/-- The `while` loop of `ship_results`, bounded by `fuel` iterations. -/
def ship_loop : Nat → exporter_state → outcome
  | fuel, st =>
    if 0 < st.query.requested ∧ 0 < st.query.cached then
      match fuel with
      | 0 => ⟨st, [], .diverged⟩
      | fuel + 1 =>
        match fetch_next st with
        | .error site => ⟨st, [], .aborted site⟩
        | .ok (slice, st1) =>
          let rows := slice.rows
          if rows ≤ st1.query.cached then
            let st2 := { st1 with query := { st1.query with
                          cached := st1.query.cached - rows,
                          requested := st1.query.requested - rows,
                          shipped := st1.query.shipped + rows } }
            let r := ship_loop fuel st2
            { r with out := effect.ship slice :: r.out }
          else ⟨st1, [], .aborted .rows_le_cached⟩
    else ⟨st, [], .returned⟩

/-- Every iteration but the last removes a batch from the buffer, so the loop runs at
most `results.size() + 1` times. -/
def ship_results (st : exporter_state) : outcome :=
  ship_loop (st.results.length + 1) st

/-- The overload `shutdown(self)`: a query with the continuous option stays alive. -/
def shutdown (st : exporter_state) : outcome :=
  if has_continuous_option st.options then ⟨st, [], .returned⟩
  else ⟨st, [.exit_self .normal], .returned⟩

/-- The overload `shutdown(self, err)`. -/
def shutdown_error (st : exporter_state) (err : Nat) : outcome :=
  ⟨st, [.exit_self (.error err)], .returned⟩

def request_more_hits (st : exporter_state) : outcome :=
  if ¬ has_historical_option st.options then ⟨st, [], .returned⟩
  else if st.query.requested = 0 then ⟨st, [], .returned⟩
  else if st.query.lookups_issued > st.query.lookups_complete then ⟨st, [], .returned⟩
  else if st.query.lookups_issued ≠ st.query.lookups_complete then
    ⟨st, [], .aborted .lookups_equal⟩
  else if st.query.received = st.query.expected then ⟨st, [], .returned⟩
  else if ¬ st.query.received < st.query.expected then
    ⟨st, [], .aborted .received_lt_expected⟩
  else
    let remaining := st.query.expected - st.query.received
    let n := min remaining 2
    ⟨{ st with query := { st.query with scheduled := n } },
     [.index_request st.id n], .returned⟩

/-- Lines 176-188 of `handle_batch`: the candidate check with the checker found or
just compiled. -/
def check_candidates (P : primitives) (st : exporter_state) (checker : Nat)
    (slice : table_slice) : outcome :=
  let st1 := { st with query := { st.query with
                processed := st.query.processed + slice.rows } }
  let selection := P.evaluate checker slice
  let selection_size := rank selection
  if selection_size = 0 then ⟨st1, [], .returned⟩
  else
    let st2 := { st1 with query := { st1.query with
                  cached := st1.query.cached + selection_size } }
    let st3 := { st2 with results := select st2.results slice selection }
    ship_results st3

def handle_batch (P : primitives) (st : exporter_state) (slice : table_slice) :
    outcome :=
  if slice.encoding = .none then ⟨st, [], .aborted .slice_encoding⟩
  else
    match st.checkers.lookup slice.layout with
    | some checker => check_candidates P st checker slice
    | none =>
      match P.tailor st.expr slice.layout with
      | .error _ => (ship_results st).and_then shutdown
      | .ok x =>
        check_candidates P { st with checkers := (slice.layout, x) :: st.checkers }
          x slice

/-! ## The message handlers of `exporter` -/

/-- Messages the coordinator handles, one constructor per handler of the behavior
returned by `exporter` (and the two continuations of the request sent by `run`). -/
inductive event where
  /-- Source: `(atom::extract)` -/
  | extract_all
  /-- Source: `(atom::extract, uint64_t requested_results)` -/
  | extract (requested_results : Nat)
  /-- Source: `(accountant_actor accountant)` -/
  | accountant (handle : Nat)
  /-- Source: `(archive_actor archive)` -/
  | archive (handle : Nat)
  /-- Source: `(index_actor index)` -/
  | index (handle : Nat)
  /-- Source: `(atom::sink, const caf::actor& sink)` -/
  | sink (handle : Nat)
  /-- Source: `(atom::run)` -/
  | run
  /-- Source: `(const uuid& lookup, uint32_t partitions, uint32_t scheduled)`, the reply
  of the Index to the query sent by `run` -/
  | run_reply (lookup : Nat) (partitions : Nat) (scheduled : Nat)
  /-- Source: `(const caf::error& e)`, the failure of the request sent by `run` -/
  | run_error (e : Nat)
  /-- Source: `(atom::statistics, const caf::actor& statistics_subscriber)` -/
  | statistics (handle : Nat)
  /-- One element of the inbound stream `caf::stream<table_slice>` -/
  | stream (slice : table_slice)
  /-- Source: `(atom::status, status_verbosity v)` -/
  | status (v : Nat)
  /-- Source: `(table_slice slice)`, a batch pushed by the Archive -/
  | slice (slice : table_slice)
  /-- Source: `(atom::done, const caf::error& err)`, completion signal of the Archive -/
  | archive_done (sender : Nat) (err : Option Nat)
  /-- Source: `(const ids& hits)` -/
  | hits (hits : ids)
  /-- Source: `(atom::done)`, completion signal of the Index -/
  | done
deriving DecidableEq

/-- Handler `(atom::extract)`. -/
def on_extract_all (st : exporter_state) : outcome :=
  if st.query.requested = max_events then ⟨st, [], .returned⟩
  else
    let st1 := { st with query := { st.query with requested := max_events } }
    (ship_results st1).and_then request_more_hits

/-- Handler `(atom::extract, uint64_t requested_results)`. -/
def on_extract (st : exporter_state) (requested_results : Nat) : outcome :=
  if requested_results = 0 then ⟨st, [], .returned⟩
  else if st.query.requested = max_events then ⟨st, [], .returned⟩
  else if ¬ st.query.requested < max_events then ⟨st, [], .aborted .requested_lt_max⟩
  else
    let n := min (max_events - requested_results) requested_results
    let st1 := { st with query := { st.query with
                  requested := (st.query.requested + n) % 2 ^ 64 } }
    (ship_results st1).and_then request_more_hits

/-- Continuation of the request sent by `run`: the reply of the Index. -/
def on_run_reply (st : exporter_state) (lookup partitions scheduled : Nat) : outcome :=
  let st1 := { st with id := lookup }
  if 0 < partitions then
    ⟨{ st1 with query := { st1.query with expected := partitions,
                                           scheduled := scheduled } }, [], .returned⟩
  else shutdown st1

/-- Handler `(atom::done, const caf::error& err)`: completion signal of the Archive. -/
def on_archive_done (st : exporter_state) (sender : Nat) : outcome :=
  if st.archive ≠ some sender then ⟨st, [], .aborted .sender_is_archive⟩
  else
    let st1 := { st with query := { st.query with
                  lookups_complete := st.query.lookups_complete + 1 } }
    if finished st1.query then ⟨st1, [], .aborted .not_finished⟩
    else ⟨st1, [], .returned⟩

/-- Handler `(const ids& hits)`.  After the `expected == 0` check the source stores
the wall-clock time since `start` in `query.runtime` (lines 372-374) and puts it
into the accountant's report; the Ledger of this development carries no wall-clock
field, so `st` below stands for the state apart from `runtime`. -/
def on_hits (st : exporter_state) (hits : ids) : outcome :=
  if st.query.expected = 0 then ⟨st, [], .skipped⟩
  else
    let count := rank hits
    let report : List effect :=
      if st.accountant.isSome then [.report_hits (decide (st.hits = ∅)) count] else []
    if count = 0 then ⟨st, report, .returned⟩
    else if rank (st.hits ∩ hits) ≠ 0 then ⟨st, report, .aborted .hits_disjoint⟩
    else
      ⟨{ st with hits := st.hits ∪ hits,
                 query := { st.query with
                   lookups_issued := st.query.lookups_issued + 1 } },
       report ++ [.archive_lookup hits], .returned⟩

/-- Handler `(atom::done)`: completion signal of the Index.  After the skip check the
source stores the wall-clock time since `start` in `query.runtime` (lines 407-409),
which the Ledger of this development does not carry. -/
def on_done (st : exporter_state) : outcome :=
  if st.query.lookups_issued ≠ st.query.lookups_complete then ⟨st, [], .skipped⟩
  else
    let st1 := { st with query := { st.query with
                  received := st.query.received + st.query.scheduled } }
    if st1.query.received < st1.query.expected then request_more_hits st1
    else
      let report : List effect :=
        if st1.accountant.isSome then [.report_runtime] else []
      if finished st1.query then
        (outcome.mk st1 report .returned).and_then shutdown
      else ⟨st1, report, .returned⟩

/-- The behavior returned by `exporter`: the handler run for each message. -/
def exporter (P : primitives) (st : exporter_state) : event → outcome
  | .extract_all => on_extract_all st
  | .extract requested_results => on_extract st requested_results
  | .accountant h => ⟨{ st with accountant := some h }, [.announce], .returned⟩
  | .archive h =>
    let st1 := { st with archive := some h }
    ⟨st1, (if has_continuous_option st1.options then [.monitor st1.archive] else [])
          ++ (if has_historical_option st1.options then [.archive_register] else []),
     .returned⟩
  | .index h =>
    let st1 := { st with index := some h }
    ⟨st1, if has_continuous_option st1.options then [.monitor st1.index] else [],
     .returned⟩
  | .sink h =>
    let st1 := { st with sink := some h }
    ⟨st1, [.monitor st1.sink], .returned⟩
  | .run =>
    if ¬ has_historical_option st.options then ⟨st, [], .returned⟩
    else ⟨st, [.index_query st.expr], .returned⟩
  | .run_reply lookup partitions scheduled => on_run_reply st lookup partitions scheduled
  | .run_error e => shutdown_error st e
  | .statistics h => ⟨{ st with statistics_subscriber := some h }, [], .returned⟩
  | .stream slice => handle_batch P st slice
  | .status _ => ⟨st, [], .returned⟩
  | .slice slice => handle_batch P st slice
  | .archive_done sender _ => on_archive_done st sender
  | .hits hits => on_hits st hits
  | .done => on_done st

/-- The state in which `exporter` starts: options and predicate set, all counters
zero, empty buffer, no collaborator registered. -/
def initial_state (options : query_options) (expr : Nat) : exporter_state :=
  { options := options, expr := expr }

/-! ## Statistics, exit and down handlers -/

/-- The messages sent by `report_statistics`: the Ledger to the statistics subscriber
and the report to the accountant, each only if registered. -/
def report_statistics (st : exporter_state) : List effect :=
  (if st.statistics_subscriber.isSome then [.statistics st.query] else []) ++
  (if st.accountant.isSome then
    let hits := rank st.hits
    let processed := st.query.processed
    let shipped := st.query.shipped
    let results := shipped + st.results.length
    [.report hits processed results shipped]
  else [])

/-- Modelled from the spec: an exit message (`caf::exit_msg`), its sender and reason. -/
structure exit_msg where
  source : Nat
  reason : exit_reason
deriving DecidableEq, Repr

/-- Modelled from the spec: a down message (`caf::down_msg`) of a monitored actor. -/
structure down_msg where
  source : Nat
  reason : exit_reason
deriving DecidableEq, Repr

/-- The exit handler set by `exporter`. -/
def on_exit (st : exporter_state) (msg : exit_msg) : outcome :=
  ⟨st,
   (if msg.reason ≠ .kill then report_statistics st else [])
     ++ [.index_stop st.id, .quit msg.reason],
   .returned⟩

/-- The down handler set by `exporter`. -/
def on_down (st : exporter_state) (msg : down_msg) : outcome :=
  ⟨st,
   (if has_continuous_option st.options
        ∧ (some msg.source = st.archive ∨ some msg.source = st.index) then
      report_statistics st
    else [])
     ++ [.quit msg.reason],
   .returned⟩

/-! ## The coordinator among its collaborators -/

/-- Batches shipped to the sink by a sequence of messages, in shipping order. -/
def shipped_slices : List effect → List table_slice
  | [] => []
  | .ship s :: rest => s :: shipped_slices rest
  | _ :: rest => shipped_slices rest

/-- Number of rows shipped to the sink by a sequence of messages. -/
def shipped_rows (out : List effect) : Nat := total_rows (shipped_slices out)

/-- Partition counts of the requests `send(st.index, st.id, n)` in a sequence of
messages, in sending order. -/
def partition_requests : List effect → List Nat
  | [] => []
  | .index_request _ n :: rest => n :: partition_requests rest
  | _ :: rest => partition_requests rest

/-- Number of hit-sets forwarded to the Archive by a sequence of messages. -/
def lookups_sent : List effect → Nat
  | [] => 0
  | .archive_lookup _ :: rest => lookups_sent rest + 1
  | _ :: rest => lookups_sent rest

/-- Number of queries sent to the Index (by `run`) in a sequence of messages. -/
def queries_sent : List effect → Nat
  | [] => 0
  | .index_query _ :: rest => queries_sent rest + 1
  | _ :: rest => queries_sent rest

/-- Sum of the `n` of the `extract(n)` calls among the messages handled. -/
def requested_total : List event → Nat
  | [] => 0
  | .extract n :: rest => n + requested_total rest
  | _ :: rest => requested_total rest

/-- A run of the coordinator: its state, the history of the run, and what its
collaborators still owe it. -/
structure world where
  /-- state of the coordinator -/
  exporter : exporter_state
  /-- messages handled so far, oldest first -/
  delivered : List event
  /-- messages sent so far, oldest first -/
  sent : List effect
  /-- the assertion that failed, once one has -/
  fault : Option assertion_site
  /-- queries sent by `run` that the Index has not answered yet -/
  query_owed : Nat
  /-- partition counts of the schedules (the initial one of the reply to `run`, then
  one per partition request) whose `done` the coordinator has not consumed yet,
  oldest first -/
  index_owed : List Nat
  /-- hit-sets forwarded to the Archive whose `done` has not been delivered yet -/
  archive_owed : Nat
deriving DecidableEq

/-- The run before the first message. -/
def world.start (options : query_options) (expr : Nat) : world :=
  { exporter := initial_state options expr, delivered := [], sent := [], fault := none,
    query_owed := 0, index_owed := [], archive_owed := 0 }

/-- Schedules the Index still has to complete after the coordinator handled `e`. -/
def index_owed_after (owed : List Nat) (e : event) (r : outcome) : List Nat :=
  (match e, r.disp with
    | .done, .returned => owed.tail
    | _, _ => owed)
  ++ (match e with
    | .run_reply _ partitions scheduled => if 0 < partitions then [scheduled] else []
    | _ => [])
  ++ partition_requests r.out

/-- The assertion at which a handler ended, if it failed one. -/
def disposition.fault : disposition → Option assertion_site
  | .aborted site => some site
  | _ => none

/-- Number of queries of `run` that a message answers. -/
def event.answers_query : event → Nat
  | .run_reply _ _ _ => 1
  | .run_error _ => 1
  | _ => 0

/-- Number of hit-sets forwarded to the Archive that a message answers. -/
def event.answers_lookup : event → Nat
  | .archive_done _ _ => 1
  | _ => 0

/-- The coordinator handles one message. -/
def world.step (P : primitives) (w : world) (e : event) : world :=
  let r := vast.exporter P w.exporter e
  { exporter := r.st
    delivered := w.delivered ++ [e]
    sent := w.sent ++ r.out
    fault := r.disp.fault
    query_owed := w.query_owed + queries_sent r.out - e.answers_query
    index_owed := index_owed_after w.index_owed e r
    archive_owed := w.archive_owed + lookups_sent r.out - e.answers_lookup }

/-- No assumption on the collaborators: any message may arrive at any time. -/
def any_environment : world → event → Bool := fun _ _ => true

/-- The consumer never asks for all events: there is no `extract()` call. -/
def bounded_demand : world → event → Bool
  | _, .extract_all => false
  | _, _ => true

/-- The Archive sends exactly one `done` per hit-set forwarded to it. -/
def archive_contract : world → event → Bool
  | w, .archive_done _ _ => decide (0 < w.archive_owed)
  | _, _ => true

/-- The Index answers the query of `run` once, with `scheduled <= partitions`; it
sends hit-sets only while a schedule is unanswered, and one `done` per schedule. -/
def index_contract : world → event → Bool
  | w, .run_reply _ partitions scheduled =>
    decide (0 < w.query_owed) && decide (scheduled ≤ partitions)
  | w, .run_error _ => decide (0 < w.query_owed)
  | w, .hits _ => !w.index_owed.isEmpty
  | w, .done => !w.index_owed.isEmpty
  | _, _ => true

/-- All collaborators keep their contracts, and only the registered Archive sends the
Archive's completion signal. -/
def protocol (w : world) (e : event) : Bool :=
  archive_contract w e && index_contract w e &&
  (match e with
    | .archive_done sender _ => decide (w.exporter.archive = some sender)
    | _ => true)

/-- Worlds reachable from `w0` by messages that the environment `env` allows; a run
ends at the first failed assertion. -/
inductive reachable (P : primitives) (env : world → event → Bool) (w0 : world) :
    world → Prop where
  | start : reachable P env w0 w0
  | step {w : world} (e : event) :
      reachable P env w0 w → w.fault = none → env w e = true →
      reachable P env w0 (w.step P e)

/-- The world after a list of messages has been handled, oldest first. -/
def world.after (P : primitives) : world → List event → world
  | w, [] => w
  | w, e :: es => world.after P (w.step P e) es

/-- Whether the environment `env` allows a list of messages to arrive in this order,
none of them after a failed assertion. -/
def admissible (P : primitives) (env : world → event → Bool) : world → List event → Bool
  | _, [] => true
  | w, e :: es =>
    decide (w.fault = none) && env w e && admissible P env (w.step P e) es

/-- Every demand of a trace of shipped batches is covered: each batch has at most as
many rows as the demand that is outstanding when it is shipped, and the demand
decreases by the rows shipped. -/
def within_demand : Nat → List table_slice → Prop
  | _, [] => True
  | demand, s :: rest => s.rows ≤ demand ∧ within_demand (demand - s.rows) rest

/-- The Ledger after `k` rows have been shipped. -/
def query_status.ship (q : query_status) (k : Nat) : query_status :=
  { q with cached := q.cached - k, requested := q.requested - k, shipped := q.shipped + k }

/-- A purely historical query. -/
def historical_query : query_options := ⟨true, false⟩

/-- A query with both the historical and the continuous option. -/
def unified_query : query_options := ⟨true, true⟩

/-- Example batch: ten rows with identifiers 100 to 109. -/
def ten_rows : table_slice := .batch false 7 100 [0, 1, 2, 3, 4, 5, 6, 7, 8, 9]

/-- Example run: a ten-row batch arrives, then the consumer asks for five rows. -/
def demand_trace : List event := [.sink 3, .slice ten_rows, .extract 5]

/-- Example state: two buffered batches of three and two rows, four rows requested. -/
def two_batches : exporter_state :=
  { options := historical_query, expr := 0,
    results := [.batch false 7 0 [10, 11, 12], .batch false 7 3 [13, 14]],
    query := { cached := 5, requested := 4 } }

/-- Example run: the Index reports a hit-set, the coordinator forwards it to the
Archive, and the Archive answers with a batch and its completion signal. -/
def lookup_trace : List event :=
  [.index 1, .archive 2, .sink 3, .run, .run_reply 42 3 2, .hits {100, 101},
   .slice (.batch false 7 100 [5, 6]), .archive_done 2 none]

/-- Example run of a query with both options over two partitions, one of them in the
initial schedule.  The consumer's `extract(1)` makes the coordinator ask for two more
partitions while the initial schedule is unanswered, so the `done` of the initial
schedule is counted as two partitions and `received` reaches `expected` before the
hit-set of the second partition has arrived. -/
def early_finish_trace : List event :=
  [.index 1, .archive 2, .sink 3, .run, .run_reply 42 2 1, .extract 1,
   .hits {100}, .archive_done 2 none, .done, .hits {200}]

/-- Example run of a historical query over ten partitions, five of them in the initial
schedule, in which the consumer calls `extract(1)` twice before the Index answers. -/
def double_extract_trace : List event :=
  [.index 1, .archive 2, .sink 3, .run, .run_reply 42 10 5, .extract 1, .extract 1]

/-- Example run of a historical query over ten partitions, five of them in the initial
schedule, in which the consumer calls `extract(1)` before the Index answers. -/
def early_extract_trace : List event :=
  [.index 1, .archive 2, .sink 3, .run, .run_reply 42 10 5, .extract 1]

/-- Example run of a historical query over three partitions, two of them in the
initial schedule: `extract(1)` sends a request for two more partitions, the one row
asked for is shipped, and the Index then answers the initial schedule and the
request with one `done` each. -/
def stale_schedule_trace : List event :=
  [.index 1, .archive 2, .sink 3, .run, .run_reply 42 3 2, .extract 1, .hits {100},
   .slice (.batch false 7 100 [5]), .archive_done 2 none, .done, .done]

/-- Example state: ten partitions expected, none received, one row requested. -/
def awaiting_hits : exporter_state :=
  { options := historical_query, expr := 0, id := 42,
    query := { expected := 10, requested := 1 } }

/-- The assertions that are made inside `ship_results`. -/
def assertion_site.in_ship_results : assertion_site → Bool
  | .results_nonempty => true
  | .first_encoding => true
  | .second_encoding => true
  | .first_rows => true
  | .rows_le_cached => true
  | _ => false

/-- Bookkeeping of Archive round-trips by a handler other than the Archive's `done`:
`lookups_issued` grows by the hit-sets forwarded, `lookups_complete` is untouched, and
the assertion `lookups_issued == lookups_complete` holds when it is reached, provided
no more round-trips were complete than issued. -/
def lookup_frame (st : exporter_state) (r : outcome) : Prop :=
  r.st.query.lookups_issued = st.query.lookups_issued + lookups_sent r.out ∧
  r.st.query.lookups_complete = st.query.lookups_complete ∧
  (st.query.lookups_complete ≤ st.query.lookups_issued →
    r.disp ≠ .aborted .lookups_equal)

/-- Exact accounting of a handler run from state `st`: what it ships is taken out of
`requested` and counted in `shipped`. -/
def accounted (st : exporter_state) (r : outcome) : Prop :=
  shipped_rows r.out + r.st.query.requested = st.query.requested ∧
  r.st.query.shipped = st.query.shipped + shipped_rows r.out

/-- The counter `cached` agrees with the Result Buffer. -/
def buffer_consistent (st : exporter_state) : Prop :=
  st.query.cached = total_rows st.results

/-- The property that `select` appends batches whose rows total `rank(selection)`,
for the selections that `evaluate` returns. -/
def select_exact (P : primitives) : Prop :=
  ∀ (results : List table_slice) (checker : Nat) (slice : table_slice),
    total_rows (select results slice (P.evaluate checker slice))
      = total_rows results + rank (P.evaluate checker slice)

/-- Example primitives: every schema compiles and every row of a batch matches. -/
def match_all : primitives where
  tailor := fun expr _ => .ok expr
  evaluate := fun _ slice => Finset.Ico slice.offset (slice.offset + slice.rows)

/-! ## Shipping -/

/-- The checker that `handle_batch` evaluates a batch with: the cached one for the
schema of the batch, or else the one compiled now; `none` when compilation fails. -/
def checker_for (P : primitives) (st : exporter_state) (slice : table_slice) :
    Option Nat :=
  match st.checkers.lookup slice.layout with
  | some checker => some checker
  | none =>
    match P.tailor st.expr slice.layout with
    | .error _ => none
    | .ok x => some x

/-- The checker cache once `handle_batch` has found or compiled `checker`. -/
def checkers_after (st : exporter_state) (slice : table_slice) (checker : Nat) :
    List (Nat × Nat) :=
  match st.checkers.lookup slice.layout with
  | some _ => st.checkers
  | none => (slice.layout, checker) :: st.checkers

/-- Example primitives: every schema compiles and the predicate matches the rows 10
to 19 of a batch. -/
def match_window : primitives where
  tailor := fun expr _ => .ok expr
  evaluate := fun _ slice => Finset.Ico (slice.offset + 10) (slice.offset + 20)

/-- Example primitives: every schema compiles and the predicate matches no row. -/
def match_none : primitives where
  tailor := fun expr _ => .ok expr
  evaluate := fun _ _ => ∅

/-- Example batch: a hundred rows with identifiers 1000 to 1099. -/
def hundred_rows : table_slice := .batch false 7 1000 (List.range 100)

/-- Example state: four partitions expected, two of them in the initial schedule. -/
def two_of_four : exporter_state :=
  { options := historical_query, expr := 0, query := { expected := 4, scheduled := 2 } }

/-- Example state: one ten-row batch buffered, nothing requested. -/
def ten_cached : exporter_state :=
  { options := historical_query, expr := 0, results := [ten_rows],
    query := { cached := 10 } }

/-- Example state: everything was requested before (`requested == max_events`). -/
def unbounded : exporter_state :=
  { options := historical_query, expr := 0, query := { requested := max_events } }

/-- Example run: ten rows are buffered when the consumer asks for all events. -/
def unbounded_trace : List event :=
  [.index 1, .archive 2, .sink 3, .run, .run_reply 42 10 5, .stream ten_rows,
   .extract_all]

/-- Example run: two calls `extract(2 ^ 63)`, each of which adds `2 ^ 63 - 1` to
`requested`. -/
def wrap_trace : List event :=
  [.sink 3, .extract (2 ^ 63), .extract (2 ^ 63)]

/-- A sequence of messages that holds neither a partition request to the Index nor a
hit-set forwarded to the Archive. -/
def quiet (out : List effect) : Prop :=
  partition_requests out = [] ∧ lookups_sent out = 0

/-- Example run of a query with both options over two partitions, up to the `done`
with which `received` reaches `expected` (see `early_finish_trace`). -/
def finish_trace : List event :=
  [.index 1, .archive 2, .sink 3, .run, .run_reply 42 2 1, .extract 1,
   .hits {100}, .archive_done 2 none, .done]

/-- Hit-sets forwarded to the Archive by a sequence of messages, in sending order. -/
def lookups_of : List effect → List ids
  | [] => []
  | .archive_lookup hits :: rest => hits :: lookups_of rest
  | _ :: rest => lookups_of rest

/-- Union of a list of hit-sets. -/
def union_all : List ids → ids
  | [] => ∅
  | hits :: rest => hits ∪ union_all rest

/-- Sum of the ranks of a list of hit-sets. -/
def rank_sum : List ids → Nat
  | [] => 0
  | hits :: rest => rank hits + rank_sum rest

/-- A handler that leaves the hit accumulator alone and forwards no hit-set. -/
def hits_frame (st : exporter_state) (r : outcome) : Prop :=
  r.st.hits = st.hits ∧ lookups_of r.out = []

/-- Example state: a started query whose accumulator holds the identifier 1. -/
def one_hit : exporter_state :=
  { options := historical_query, expr := 0, hits := {1}, query := { expected := 1 } }

/-- Example run: two disjoint hit-sets are accepted and forwarded. -/
def two_hits_trace : List event :=
  [.index 1, .archive 2, .sink 3, .run, .run_reply 42 3 2, .hits {100, 101},
   .hits {200}]

/-- Example primitives: no schema compiles; compilation fails with error 7. -/
def match_fail : primitives where
  tailor := fun _ _ => .error 7
  evaluate := fun _ _ => ∅

/-- Example state: `ten_cached` for a query with both options. -/
def ten_cached_unified : exporter_state :=
  { ten_cached with options := unified_query }

/-- Example state: a historical query with all collaborators registered (Index 1,
Archive 2, Sink 3, statistics subscriber 8, accountant 9) and one ten-row batch
buffered. -/
def watched : exporter_state :=
  { options := historical_query, expr := 0, id := 42, results := [ten_rows],
    query := { processed := 10, cached := 10 },
    accountant := some 9, archive := some 2, index := some 1, sink := some 3,
    statistics_subscriber := some 8 }

/-- Example run: accountant and sink register, then a ten-row batch arrives on the
stream while nothing is requested. -/
def buffered_trace : List event := [.accountant 9, .sink 3, .stream ten_rows]

/-- The property that `evaluate` returns a selection over the rows of the batch, so
that `rank(selection) <= rows(batch)`. -/
def rows_bounded (P : primitives) : Prop :=
  ∀ (checker : Nat) (slice : table_slice), rank (P.evaluate checker slice) ≤ slice.rows

/-- Row bookkeeping of a handler: `processed` and `shipped` do not decrease, and
`shipped + cached` grows by no more than `processed` does. -/
def ledger_step (st : exporter_state) (r : outcome) : Prop :=
  st.query.processed ≤ r.st.query.processed ∧
  st.query.shipped ≤ r.st.query.shipped ∧
  r.st.query.shipped + r.st.query.cached + st.query.processed
    ≤ st.query.shipped + st.query.cached + r.st.query.processed

/-- A handler that leaves the query predicate and the checker cache alone. -/
def cache_keep (st : exporter_state) (r : outcome) : Prop :=
  r.st.expr = st.expr ∧ r.st.checkers = st.checkers

/-- Example primitives: the checker compiled for a schema is the predicate offset by
the schema tag, and every row of a batch matches. -/
def per_schema : primitives where
  tailor := fun expr layout => .ok (expr + layout)
  evaluate := fun _ slice => Finset.Ico slice.offset (slice.offset + slice.rows)

/-- Example batch: two rows of schema 8. -/
def other_schema : table_slice := .batch false 8 200 [20, 21]

/-- Example run: two batches of schema 7 and one of schema 8 arrive. -/
def schemas_trace : List event :=
  [.sink 3, .stream ten_rows, .stream other_schema, .stream ten_rows]

theorem total_rows_eq_length (rs : List table_slice) :
    total_rows rs = (all_rows rs).length := by
  induction rs with
  | nil => rfl
  | cons s rest ih => simp [total_rows, all_rows, table_slice.rows, ih]

theorem split_fst_data (s : table_slice) (k : Nat) :
    (split s k).1.data = s.data.take k := by
  cases s <;> simp [split, table_slice.data]

theorem split_snd_data (s : table_slice) (k : Nat) :
    (split s k).2.data = s.data.drop k := by
  cases s <;> simp [split, table_slice.data]

theorem split_encoding_of_rows (s : table_slice) (k : Nat) (h : 0 < s.rows) :
    (split s k).1.encoding ≠ .none ∧ (split s k).2.encoding ≠ .none := by
  cases s with
  | invalid => simp [table_slice.rows, table_slice.data] at h
  | batch m l o d => cases m <;> simp [split, table_slice.encoding]

theorem fetch_next_whole (st : exporter_state) (head : table_slice)
    (rest : List table_slice) (hr : st.results = head :: rest)
    (hle : head.rows ≤ st.query.requested) :
    fetch_next st = .ok (head, { st with results := rest }) := by
  simp [fetch_next, hr, hle]

theorem fetch_next_split (st : exporter_state) (head : table_slice)
    (rest : List table_slice) (hr : st.results = head :: rest)
    (hlt : st.query.requested < head.rows) :
    fetch_next st = .ok ((split head st.query.requested).1,
      { st with results := (split head st.query.requested).2 :: rest }) := by
  have henc := split_encoding_of_rows head st.query.requested (by omega)
  have hrows : (split head st.query.requested).1.rows = st.query.requested := by
    simp only [table_slice.rows, split_fst_data, List.length_take]
    simp only [table_slice.rows] at hlt
    omega
  simp [fetch_next, hr, hlt, henc.1, henc.2, hrows]

theorem query_status.ship_zero (q : query_status) : q.ship 0 = q := by
  cases q; simp [query_status.ship]

theorem query_status.ship_ship (q : query_status) (a b : Nat) :
    (q.ship a).ship b = q.ship (a + b) := by
  cases q; simp [query_status.ship]; omega

theorem ship_loop_exit (fuel : Nat) (st : exporter_state)
    (h : ¬ (0 < st.query.requested ∧ 0 < st.query.cached)) :
    ship_loop fuel st = ⟨st, [], .returned⟩ := by
  cases fuel <;> simp [ship_loop, h]

theorem ship_loop_iter (fuel : Nat) (st st1 : exporter_state) (slice : table_slice)
    (hg : 0 < st.query.requested ∧ 0 < st.query.cached)
    (hf : fetch_next st = .ok (slice, st1)) (hc : slice.rows ≤ st1.query.cached) :
    ship_loop (fuel + 1) st =
      { ship_loop fuel { st1 with query := { st1.query with
                          cached := st1.query.cached - slice.rows,
                          requested := st1.query.requested - slice.rows,
                          shipped := st1.query.shipped + slice.rows } } with
        out := effect.ship slice ::
          (ship_loop fuel { st1 with query := { st1.query with
                          cached := st1.query.cached - slice.rows,
                          requested := st1.query.requested - slice.rows,
                          shipped := st1.query.shipped + slice.rows } }).out } := by
  rw [ship_loop]
  simp [hg, hf, hc]

theorem query_status.ship_step (q : query_status) (a b : Nat) :
    ({ q with cached := q.cached - a, requested := q.requested - a,
              shipped := q.shipped + a } : query_status).ship b = q.ship (a + b) := by
  cases q; simp [query_status.ship]; omega

theorem ship_loop_spec (fuel : Nat) : ∀ st : exporter_state,
    st.results.length < fuel → st.query.cached = total_rows st.results →
    ∃ (ships rest : List table_slice),
      ship_loop fuel st =
        ⟨{ st with results := rest,
                   query := st.query.ship (min st.query.requested st.query.cached) },
         ships.map effect.ship, .returned⟩ ∧
      all_rows ships
        = (all_rows st.results).take (min st.query.requested st.query.cached) ∧
      all_rows rest
        = (all_rows st.results).drop (min st.query.requested st.query.cached) ∧
      within_demand st.query.requested ships := by
  induction fuel with
  | zero => intro st h; omega
  | succ fuel ih =>
    intro st hlen hinv
    by_cases hg : 0 < st.query.requested ∧ 0 < st.query.cached
    · cases hres : st.results with
      | nil =>
        rw [hres] at hinv
        simp [total_rows] at hinv
        omega
      | cons head rest =>
        rw [hres] at hinv hlen
        simp only [total_rows] at hinv
        simp only [List.length_cons] at hlen
        by_cases hle : head.rows ≤ st.query.requested
        · -- the head is shipped whole
          have hf := fetch_next_whole st head rest hres hle
          have hc : head.rows ≤ ({ st with results := rest } : exporter_state).query.cached := by
            show head.rows ≤ st.query.cached
            omega
          obtain ⟨ships, rest2, heq, h1, h2, h3⟩ :=
            ih { st with results := rest, query := { st.query with
                    cached := st.query.cached - head.rows,
                    requested := st.query.requested - head.rows,
                    shipped := st.query.shipped + head.rows } }
              (by show rest.length < fuel; omega)
              (by show st.query.cached - head.rows = total_rows rest; omega)
          refine ⟨head :: ships, rest2, ?_, ?_, ?_, ?_⟩
          · rw [ship_loop_iter fuel st _ head hg hf hc]
            have hk : head.rows + min (st.query.requested - head.rows)
                (st.query.cached - head.rows) = min st.query.requested st.query.cached := by
              omega
            simp only [heq, List.map_cons, query_status.ship_step, hk]
          · have hk : min st.query.requested st.query.cached
                = head.data.length + min (st.query.requested - head.rows)
                    (st.query.cached - head.rows) := by
              simp only [table_slice.rows] at hle hinv ⊢
              omega
            simp only [all_rows, hk, List.take_append]
            rw [h1]
          · have hk : min st.query.requested st.query.cached
                = head.data.length + min (st.query.requested - head.rows)
                    (st.query.cached - head.rows) := by
              simp only [table_slice.rows] at hle hinv ⊢
              omega
            simp only [all_rows, hk, List.drop_append]
            rw [h2]
          · exact ⟨hle, h3⟩
        · -- the head is split at `requested` rows
          have hlt : st.query.requested < head.rows := by omega
          have hf := fetch_next_split st head rest hres hlt
          have hrows : (split head st.query.requested).1.rows = st.query.requested := by
            simp only [table_slice.rows, split_fst_data, List.length_take]
            simp only [table_slice.rows] at hlt
            omega
          have hk : min st.query.requested st.query.cached = st.query.requested := by
            omega
          have hc : (split head st.query.requested).1.rows ≤
              ({ st with results := (split head st.query.requested).2 :: rest } :
                exporter_state).query.cached := by
            show (split head st.query.requested).1.rows ≤ st.query.cached
            omega
          refine ⟨[(split head st.query.requested).1],
            (split head st.query.requested).2 :: rest, ?_, ?_, ?_, ?_⟩
          · rw [ship_loop_iter fuel st _ _ hg hf hc, ship_loop_exit]
            · simp only [hrows, hk, query_status.ship, List.map_cons, List.map_nil]
            · simp [hrows]
          · simp only [all_rows, hk, hres, split_fst_data, List.append_nil]
            rw [List.take_append_of_le_length (by simp only [table_slice.rows] at hlt; omega)]
          · simp only [all_rows, hk, hres, split_snd_data]
            rw [List.drop_append_of_le_length (by simp only [table_slice.rows] at hlt; omega)]
          · exact ⟨by omega, trivial⟩
    · refine ⟨[], st.results, ?_, ?_, ?_, trivial⟩
      · rw [ship_loop_exit _ _ hg]
        have hk : min st.query.requested st.query.cached = 0 := by omega
        rw [hk, query_status.ship_zero]
        rfl
      · have hk : min st.query.requested st.query.cached = 0 := by omega
        simp [hk, all_rows]
      · have hk : min st.query.requested st.query.cached = 0 := by omega
        simp [hk]

theorem shipped_slices_map_ship (ships : List table_slice) :
    shipped_slices (ships.map effect.ship) = ships := by
  induction ships with
  | nil => rfl
  | cons s rest ih => simp [shipped_slices, ih]

theorem shipped_slices_append (a b : List effect) :
    shipped_slices (a ++ b) = shipped_slices a ++ shipped_slices b := by
  induction a with
  | nil => rfl
  | cons e rest ih => cases e <;> simp [shipped_slices, ih]

theorem total_rows_append (a b : List table_slice) :
    total_rows (a ++ b) = total_rows a + total_rows b := by
  induction a with
  | nil => simp [total_rows]
  | cons s rest ih => simp [total_rows, ih]; omega

theorem shipped_rows_append (a b : List effect) :
    shipped_rows (a ++ b) = shipped_rows a + shipped_rows b := by
  simp [shipped_rows, shipped_slices_append, total_rows_append]

theorem fetch_next_ok (st st1 : exporter_state) (slice : table_slice)
    (h : fetch_next st = .ok (slice, st1)) :
    slice.rows ≤ st.query.requested ∧ st1.query = st.query := by
  unfold fetch_next at h
  cases hres : st.results with
  | nil => simp [hres] at h
  | cons head rest =>
    simp only [hres] at h
    by_cases h1 : head.rows ≤ st.query.requested
    · simp only [h1, if_true, Except.ok.injEq, Prod.mk.injEq] at h
      obtain ⟨rfl, rfl⟩ := h
      exact ⟨h1, rfl⟩
    · simp only [h1, if_false] at h
      by_cases h2 : (split head st.query.requested).1.encoding = .none
      · simp [h2] at h
      · by_cases h3 : (split head st.query.requested).2.encoding = .none
        · simp [h2, h3] at h
        · by_cases h4 : (split head st.query.requested).1.rows = st.query.requested
          · simp only [h2, h3, h4, if_false, ne_eq, not_true_eq_false, Except.ok.injEq,
              Prod.mk.injEq] at h
            obtain ⟨rfl, rfl⟩ := h
            exact ⟨by omega, rfl⟩
          · simp [h2, h3, h4] at h

theorem ship_loop_fetch_error (fuel : Nat) (st : exporter_state) (site : assertion_site)
    (hg : 0 < st.query.requested ∧ 0 < st.query.cached)
    (hf : fetch_next st = .error site) :
    ship_loop (fuel + 1) st = ⟨st, [], .aborted site⟩ := by
  rw [ship_loop]
  simp [hg, hf]

theorem ship_loop_rows_error (fuel : Nat) (st st1 : exporter_state) (slice : table_slice)
    (hg : 0 < st.query.requested ∧ 0 < st.query.cached)
    (hf : fetch_next st = .ok (slice, st1)) (hc : ¬ slice.rows ≤ st1.query.cached) :
    ship_loop (fuel + 1) st = ⟨st1, [], .aborted .rows_le_cached⟩ := by
  rw [ship_loop]
  simp [hg, hf, hc]

/-- The loop of `ship_results` takes out of `requested` exactly what it ships, and
counts it in `shipped`, whatever the state it starts in. -/
theorem ship_loop_demand (fuel : Nat) : ∀ st : exporter_state,
    shipped_rows (ship_loop fuel st).out + (ship_loop fuel st).st.query.requested
      = st.query.requested ∧
    (ship_loop fuel st).st.query.shipped
      = st.query.shipped + shipped_rows (ship_loop fuel st).out := by
  induction fuel with
  | zero =>
    intro st
    unfold ship_loop
    split_ifs <;> simp [shipped_rows, shipped_slices, total_rows]
  | succ fuel ih =>
    intro st
    by_cases hg : 0 < st.query.requested ∧ 0 < st.query.cached
    · cases hf : fetch_next st with
      | error site =>
        rw [ship_loop_fetch_error fuel st site hg hf]
        simp [shipped_rows, shipped_slices, total_rows]
      | ok p =>
        obtain ⟨slice, st1⟩ := p
        obtain ⟨hle, hq⟩ := fetch_next_ok st st1 slice hf
        by_cases hc : slice.rows ≤ st1.query.cached
        · rw [ship_loop_iter fuel st st1 slice hg hf hc]
          set st2 : exporter_state := { st1 with query := { st1.query with
                          cached := st1.query.cached - slice.rows,
                          requested := st1.query.requested - slice.rows,
                          shipped := st1.query.shipped + slice.rows } } with hst2
          have hr2 : st2.query.requested = st.query.requested - slice.rows := by
            simp [hst2, hq]
          have hs2 : st2.query.shipped = st.query.shipped + slice.rows := by
            simp [hst2, hq]
          have hq1 : st1.query.requested = st.query.requested := by rw [hq]
          have hq2 : st1.query.shipped = st.query.shipped := by rw [hq]
          obtain ⟨h1, h2⟩ := ih st2
          simp only [shipped_rows, shipped_slices, total_rows] at h1 h2 ⊢
          constructor
          · omega
          · omega
        · rw [ship_loop_rows_error fuel st st1 slice hg hf hc]
          simp [shipped_rows, shipped_slices, total_rows, hq]
    · rw [ship_loop_exit _ _ hg]
      simp [shipped_rows, shipped_slices, total_rows]

theorem ship_results_demand (st : exporter_state) :
    shipped_rows (ship_results st).out + (ship_results st).st.query.requested
      = st.query.requested ∧
    (ship_results st).st.query.shipped
      = st.query.shipped + shipped_rows (ship_results st).out :=
  ship_loop_demand _ st

/-- The loop bound of the model suffices: with more fuel than buffered batches the
loop of `ship_results` ends by itself, in whatever state it starts. -/
theorem ship_loop_never_diverges (fuel : Nat) : ∀ st : exporter_state,
    st.results.length < fuel → (ship_loop fuel st).disp ≠ .diverged := by
  induction fuel with
  | zero => intro st h; omega
  | succ fuel ih =>
    intro st hlen
    by_cases hg : 0 < st.query.requested ∧ 0 < st.query.cached
    · cases hres : st.results with
      | nil =>
        have hf : fetch_next st = .error .results_nonempty := by simp [fetch_next, hres]
        rw [ship_loop_fetch_error fuel st _ hg hf]
        simp
      | cons head rest =>
        rw [hres] at hlen
        simp only [List.length_cons] at hlen
        by_cases hle : head.rows ≤ st.query.requested
        · have hf := fetch_next_whole st head rest hres hle
          by_cases hc : head.rows ≤ st.query.cached
          · rw [ship_loop_iter fuel st _ head hg hf hc]
            exact ih _ (by show rest.length < fuel; omega)
          · rw [ship_loop_rows_error fuel st _ head hg hf hc]
            simp
        · have hlt : st.query.requested < head.rows := by omega
          have hf := fetch_next_split st head rest hres hlt
          have hrows : (split head st.query.requested).1.rows = st.query.requested := by
            simp only [table_slice.rows, split_fst_data, List.length_take]
            simp only [table_slice.rows] at hlt
            omega
          by_cases hc : (split head st.query.requested).1.rows ≤ st.query.cached
          · rw [ship_loop_iter fuel st _ _ hg hf hc, ship_loop_exit]
            · simp
            · simp [hrows]
          · rw [ship_loop_rows_error fuel st _ _ hg hf hc]
            simp
    · rw [ship_loop_exit _ _ hg]
      simp

theorem ship_results_never_diverges (st : exporter_state) :
    (ship_results st).disp ≠ .diverged :=
  ship_loop_never_diverges _ st (Nat.lt_succ_self _)

/-! ## Accounting of demand -/

theorem accounted_refl (st : exporter_state) (d : disposition) :
    accounted st ⟨st, [], d⟩ := by
  simp [accounted, shipped_rows, shipped_slices, total_rows]

theorem accounted_and_then (st : exporter_state) (r : outcome)
    (f : exporter_state → outcome) (h : accounted st r)
    (hf : ∀ s, accounted s (f s)) : accounted st (r.and_then f) := by
  unfold outcome.and_then
  split
  · have h2 := hf r.st
    simp only [accounted, shipped_rows_append] at h h2 ⊢
    omega
  · exact h

theorem accounted_ship_results (st : exporter_state) : accounted st (ship_results st) :=
  ship_results_demand st

theorem accounted_request_more_hits (st : exporter_state) :
    accounted st (request_more_hits st) := by
  unfold request_more_hits
  split_ifs <;> simp [accounted, shipped_rows, shipped_slices, total_rows]

theorem accounted_shutdown (st : exporter_state) : accounted st (shutdown st) := by
  unfold shutdown
  split_ifs <;> simp [accounted, shipped_rows, shipped_slices, total_rows]

theorem accounted_check_candidates (P : primitives) (st : exporter_state) (c : Nat)
    (slice : table_slice) : accounted st (check_candidates P st c slice) := by
  unfold check_candidates
  simp only
  split_ifs
  · simp [accounted, shipped_rows, shipped_slices, total_rows]
  · exact accounted_ship_results _

theorem accounted_handle_batch (P : primitives) (st : exporter_state)
    (slice : table_slice) : accounted st (handle_batch P st slice) := by
  unfold handle_batch
  split_ifs
  · exact accounted_refl st _
  · split
    · exact accounted_check_candidates P st _ slice
    · split
      · exact accounted_and_then st _ _ (accounted_ship_results st) accounted_shutdown
      · exact accounted_check_candidates P _ _ slice

theorem reachable_after (P : primitives) (env : world → event → Bool) (w0 : world)
    (es : List event) : ∀ w : world, reachable P env w0 w →
    admissible P env w es = true → reachable P env w0 (w.after P es) := by
  induction es with
  | nil => intro w h _; exact h
  | cons e es ih =>
    intro w h hadm
    simp only [admissible, Bool.and_eq_true, decide_eq_true_eq] at hadm
    exact ih (w.step P e) (reachable.step e h hadm.1.1 hadm.1.2) hadm.2

theorem requested_total_append (a b : List event) :
    requested_total (a ++ b) = requested_total a + requested_total b := by
  induction a with
  | nil => simp [requested_total]
  | cons e rest ih => cases e <;> simp [requested_total, ih]; omega

theorem on_extract_accounted (st : exporter_state) (n : Nat) :
    shipped_rows (on_extract st n).out + (on_extract st n).st.query.requested
      ≤ st.query.requested + n ∧
    (on_extract st n).st.query.shipped
      = st.query.shipped + shipped_rows (on_extract st n).out := by
  unfold on_extract
  split_ifs
  · simp [shipped_rows, shipped_slices, total_rows]
  · simp [shipped_rows, shipped_slices, total_rows]
  · have h := accounted_and_then _ _ request_more_hits
      (accounted_ship_results { st with query := { st.query with
        requested := (st.query.requested
          + min (max_events - n) n) % 2 ^ 64 } })
      accounted_request_more_hits
    simp only [accounted] at h
    dsimp only at h ⊢
    have hmod := Nat.mod_le (st.query.requested + min (max_events - n) n) (2 ^ 64)
    have hmin : min (max_events - n) n ≤ n := Nat.min_le_right _ _
    constructor
    · omega
    · exact h.2
  · simp [shipped_rows, shipped_slices, total_rows]

theorem on_extract_all_accounted (st : exporter_state) :
    (on_extract_all st).st.query.shipped
      = st.query.shipped + shipped_rows (on_extract_all st).out := by
  unfold on_extract_all
  split_ifs
  · simp [shipped_rows, shipped_slices, total_rows]
  · exact (accounted_and_then _ _ request_more_hits
      (accounted_ship_results { st with query := { st.query with
        requested := max_events } }) accounted_request_more_hits).2

theorem accounted_on_done (st : exporter_state) : accounted st (on_done st) := by
  unfold on_done
  simp only
  split_ifs <;> first
    | exact accounted_refl st _
    | exact accounted_request_more_hits _
    | exact accounted_and_then st _ _
        (by simp [accounted, shipped_rows, shipped_slices, total_rows]) accounted_shutdown
    | simp [accounted, shipped_rows, shipped_slices, total_rows]

theorem accounted_on_hits (st : exporter_state) (h : ids) :
    accounted st (on_hits st h) := by
  unfold on_hits
  simp only
  split_ifs <;> simp [accounted, shipped_rows, shipped_slices, total_rows]

theorem accounted_on_archive_done (st : exporter_state) (sender : Nat) :
    accounted st (on_archive_done st sender) := by
  unfold on_archive_done
  simp only
  split_ifs <;> simp [accounted, shipped_rows, shipped_slices, total_rows]

theorem accounted_on_run_reply (st : exporter_state) (l p s : Nat) :
    accounted st (on_run_reply st l p s) := by
  unfold on_run_reply
  simp only
  split_ifs
  · simp [accounted, shipped_rows, shipped_slices, total_rows]
  · exact accounted_shutdown _

/-- Apart from the two `extract` handlers, every handler takes what it ships out of
`requested`. -/
theorem exporter_accounted (P : primitives) (st : exporter_state) (e : event)
    (h1 : e ≠ .extract_all) (h2 : ∀ n, e ≠ .extract n) :
    accounted st (exporter P st e) := by
  cases e with
  | extract_all => exact absurd rfl h1
  | extract n => exact absurd rfl (h2 n)
  | stream slice => exact accounted_handle_batch P st slice
  | slice slice => exact accounted_handle_batch P st slice
  | archive_done sender err => exact accounted_on_archive_done st sender
  | hits h => exact accounted_on_hits st h
  | done => exact accounted_on_done st
  | run_reply l p s => exact accounted_on_run_reply st l p s
  | run =>
    simp only [exporter]
    split_ifs <;> simp [accounted, shipped_rows, shipped_slices, total_rows]
  | archive h =>
    simp only [exporter]
    split_ifs <;> simp [accounted, shipped_rows, shipped_slices, total_rows]
  | index h =>
    simp only [exporter]
    split_ifs <;> simp [accounted, shipped_rows, shipped_slices, total_rows]
  | _ => simp [exporter, shutdown_error, accounted, shipped_rows, shipped_slices, total_rows]

theorem demand_invariant (P : primitives) (w0 w : world)
    (h : reachable P bounded_demand w0 w)
    (h0 : shipped_rows w0.sent + w0.exporter.query.requested
            ≤ requested_total w0.delivered ∧
          w0.exporter.query.shipped = shipped_rows w0.sent) :
    shipped_rows w.sent + w.exporter.query.requested ≤ requested_total w.delivered ∧
    w.exporter.query.shipped = shipped_rows w.sent := by
  induction h with
  | start => exact h0
  | @step w e _ _ henv ih =>
    obtain ⟨ih1, ih2⟩ := ih
    show shipped_rows (w.sent ++ (exporter P w.exporter e).out)
          + (exporter P w.exporter e).st.query.requested
          ≤ requested_total (w.delivered ++ [e]) ∧
        (exporter P w.exporter e).st.query.shipped
          = shipped_rows (w.sent ++ (exporter P w.exporter e).out)
    rw [shipped_rows_append, requested_total_append]
    by_cases hx : ∃ n, e = .extract n
    · obtain ⟨n, rfl⟩ := hx
      have h := on_extract_accounted w.exporter n
      simp only [exporter, requested_total] at h ⊢
      omega
    · have h := exporter_accounted P w.exporter e
        (by rintro rfl; simp [bounded_demand] at henv)
        (by intro n hn; exact hx ⟨n, hn⟩)
      have hz : requested_total [e] = 0 := by
        cases e <;> first | rfl | exact absurd ⟨_, rfl⟩ hx
      simp only [accounted] at h
      omega

/-- C1: in every run of `extract(n)` calls, batch arrivals and any other messages
except `extract()`, started in the initial state, the rows shipped to the sink so far
(and the counter `shipped`) never exceed the sum of the `n` requested so far. -/
theorem shipped_never_exceeds_requested (P : primitives) (options : query_options)
    (expr : Nat) (w : world)
    (h : reachable P bounded_demand (world.start options expr) w) :
    shipped_rows w.sent ≤ requested_total w.delivered ∧
    w.exporter.query.shipped ≤ requested_total w.delivered := by
  have hinv := demand_invariant P _ w h ⟨Nat.le_refl 0, rfl⟩
  omega

/-- Witness for C1: a ten-row batch arrives and `extract(5)` ships five rows. -/
theorem shipped_never_exceeds_requested_witness :
    reachable match_all bounded_demand (world.start historical_query 0)
      ((world.start historical_query 0).after match_all demand_trace) ∧
    shipped_rows ((world.start historical_query 0).after match_all demand_trace).sent = 5 ∧
    (shipped_rows ((world.start historical_query 0).after match_all demand_trace).sent
        ≤ requested_total
            ((world.start historical_query 0).after match_all demand_trace).delivered ∧
      ((world.start historical_query 0).after match_all demand_trace).exporter.query.shipped
        ≤ requested_total
            ((world.start historical_query 0).after match_all demand_trace).delivered) :=
  ⟨reachable_after _ _ _ _ _ reachable.start (by decide), by decide,
   shipped_never_exceeds_requested match_all historical_query 0 _
     (reachable_after _ _ _ _ _ reachable.start (by decide))⟩

/-- C3: when `cached` equals the rows in the Result Buffer, `ship_results` returns
having sent only batches, of `k = min(requested, cached)` rows in total: their
concatenation is the first `k` rows of the buffer, the buffer keeps the remaining rows
in order, every batch fits the demand outstanding when it is shipped, `cached` and
`requested` decrease by `k`, `shipped` increases by `k`, and nothing else changes. -/
theorem ship_results_ships_min (st : exporter_state)
    (hinv : st.query.cached = total_rows st.results) :
    (ship_results st).disp = .returned ∧
    (ship_results st).out = (shipped_slices (ship_results st).out).map effect.ship ∧
    shipped_rows (ship_results st).out = min st.query.requested st.query.cached ∧
    all_rows (shipped_slices (ship_results st).out)
      = (all_rows st.results).take (min st.query.requested st.query.cached) ∧
    all_rows (ship_results st).st.results
      = (all_rows st.results).drop (min st.query.requested st.query.cached) ∧
    within_demand st.query.requested (shipped_slices (ship_results st).out) ∧
    (ship_results st).st.query.cached + min st.query.requested st.query.cached
      = st.query.cached ∧
    (ship_results st).st.query.requested + min st.query.requested st.query.cached
      = st.query.requested ∧
    (ship_results st).st.query.shipped
      = st.query.shipped + min st.query.requested st.query.cached ∧
    (ship_results st).st
      = { st with results := (ship_results st).st.results,
                  query := st.query.ship (min st.query.requested st.query.cached) } := by
  obtain ⟨ships, rest, heq, h1, h2, h3⟩ :=
    ship_loop_spec (st.results.length + 1) st (Nat.lt_succ_self _) hinv
  have heq2 : ship_results st = _ := heq
  rw [heq2]
  simp only [shipped_slices_map_ship, shipped_rows]
  refine ⟨trivial, trivial, ?_, h1, h2, h3, ?_, ?_, ?_, trivial⟩
  · rw [total_rows_eq_length, h1, List.length_take, ← total_rows_eq_length, ← hinv]
    omega
  · simp only [query_status.ship]; omega
  · simp only [query_status.ship]; omega
  · simp only [query_status.ship]

/-- Witness for C3: four rows requested from batches of three and two rows. -/
theorem ship_results_ships_min_witness :
    two_batches.query.cached = total_rows two_batches.results ∧
    (ship_results two_batches).out
      = [.ship (.batch false 7 0 [10, 11, 12]), .ship (.batch false 7 3 [13])] ∧
    ((ship_results two_batches).disp = .returned ∧
    (ship_results two_batches).out
      = (shipped_slices (ship_results two_batches).out).map effect.ship ∧
    shipped_rows (ship_results two_batches).out
      = min two_batches.query.requested two_batches.query.cached ∧
    all_rows (shipped_slices (ship_results two_batches).out)
      = (all_rows two_batches.results).take
          (min two_batches.query.requested two_batches.query.cached) ∧
    all_rows (ship_results two_batches).st.results
      = (all_rows two_batches.results).drop
          (min two_batches.query.requested two_batches.query.cached) ∧
    within_demand two_batches.query.requested
      (shipped_slices (ship_results two_batches).out) ∧
    (ship_results two_batches).st.query.cached
        + min two_batches.query.requested two_batches.query.cached
      = two_batches.query.cached ∧
    (ship_results two_batches).st.query.requested
        + min two_batches.query.requested two_batches.query.cached
      = two_batches.query.requested ∧
    (ship_results two_batches).st.query.shipped
      = two_batches.query.shipped
        + min two_batches.query.requested two_batches.query.cached ∧
    (ship_results two_batches).st
      = { two_batches with
            results := (ship_results two_batches).st.results,
            query := two_batches.query.ship
              (min two_batches.query.requested two_batches.query.cached) }) :=
  ⟨by decide, by decide, ship_results_ships_min two_batches (by decide)⟩

/-! ## The counter `cached` and the Result Buffer -/

theorem consistent_ship_results (st : exporter_state) (h : buffer_consistent st) :
    buffer_consistent (ship_results st).st := by
  obtain ⟨ships, rest, heq, _, h2, _⟩ :=
    ship_loop_spec (st.results.length + 1) st (Nat.lt_succ_self _) h
  have heq2 : ship_results st = _ := heq
  rw [heq2]
  simp only [buffer_consistent, query_status.ship] at h ⊢
  rw [total_rows_eq_length, h2, List.length_drop, ← total_rows_eq_length, h]

theorem consistent_request_more_hits (st : exporter_state) (h : buffer_consistent st) :
    buffer_consistent (request_more_hits st).st := by
  unfold request_more_hits
  split_ifs <;> exact h

theorem consistent_shutdown (st : exporter_state) (h : buffer_consistent st) :
    buffer_consistent (shutdown st).st := by
  unfold shutdown
  split_ifs <;> exact h

theorem consistent_and_then (r : outcome) (f : exporter_state → outcome)
    (h : buffer_consistent r.st)
    (hf : ∀ s, buffer_consistent s → buffer_consistent (f s).st) :
    buffer_consistent (r.and_then f).st := by
  unfold outcome.and_then
  split
  · exact hf r.st h
  · exact h

theorem consistent_check_candidates (P : primitives) (hP : select_exact P)
    (st : exporter_state) (c : Nat) (slice : table_slice) (h : buffer_consistent st) :
    buffer_consistent (check_candidates P st c slice).st := by
  unfold check_candidates
  simp only
  split_ifs
  · exact h
  · apply consistent_ship_results
    simp only [buffer_consistent] at h ⊢
    rw [hP, h]

theorem consistent_handle_batch (P : primitives) (hP : select_exact P)
    (st : exporter_state) (slice : table_slice) (h : buffer_consistent st) :
    buffer_consistent (handle_batch P st slice).st := by
  unfold handle_batch
  split_ifs
  · exact h
  · split
    · exact consistent_check_candidates P hP st _ slice h
    · split
      · exact consistent_and_then _ _ (consistent_ship_results st h) consistent_shutdown
      · exact consistent_check_candidates P hP _ _ slice h

theorem consistent_on_extract (st : exporter_state) (n : Nat) (h : buffer_consistent st) :
    buffer_consistent (on_extract st n).st := by
  unfold on_extract
  split_ifs
  · exact h
  · exact h
  · exact consistent_and_then _ _ (consistent_ship_results _ h)
      consistent_request_more_hits
  · exact h

theorem consistent_on_extract_all (st : exporter_state) (h : buffer_consistent st) :
    buffer_consistent (on_extract_all st).st := by
  unfold on_extract_all
  split_ifs
  · exact h
  · exact consistent_and_then _ _ (consistent_ship_results _ h)
      consistent_request_more_hits

theorem consistent_on_done (st : exporter_state) (h : buffer_consistent st) :
    buffer_consistent (on_done st).st := by
  unfold on_done
  simp only
  split_ifs <;> first
    | exact h
    | exact consistent_request_more_hits _ h
    | exact consistent_and_then _ _ h consistent_shutdown

theorem consistent_on_hits (st : exporter_state) (hs : ids) (h : buffer_consistent st) :
    buffer_consistent (on_hits st hs).st := by
  unfold on_hits
  simp only
  split_ifs <;> exact h

theorem consistent_on_archive_done (st : exporter_state) (sender : Nat)
    (h : buffer_consistent st) : buffer_consistent (on_archive_done st sender).st := by
  unfold on_archive_done
  simp only
  split_ifs <;> exact h

theorem consistent_on_run_reply (st : exporter_state) (l p s : Nat)
    (h : buffer_consistent st) : buffer_consistent (on_run_reply st l p s).st := by
  unfold on_run_reply
  simp only
  split_ifs
  · exact h
  · exact consistent_shutdown _ h

/-- Every handler keeps `cached` equal to the rows in the Result Buffer. -/
theorem consistent_exporter (P : primitives) (hP : select_exact P) (st : exporter_state)
    (e : event) (h : buffer_consistent st) : buffer_consistent (exporter P st e).st := by
  cases e with
  | extract_all => exact consistent_on_extract_all st h
  | extract n => exact consistent_on_extract st n h
  | stream slice => exact consistent_handle_batch P hP st slice h
  | slice slice => exact consistent_handle_batch P hP st slice h
  | archive_done sender err => exact consistent_on_archive_done st sender h
  | hits hs => exact consistent_on_hits st hs h
  | done => exact consistent_on_done st h
  | run_reply l p s => exact consistent_on_run_reply st l p s h
  | run =>
    simp only [exporter]
    split_ifs <;> exact h
  | _ => exact h

theorem select_rows_all (sel : ids) : ∀ (d : List Nat) (id : Nat),
    (∀ j, j < d.length → id + j ∈ sel) → select_rows sel id d = d := by
  intro d
  induction d with
  | nil => intro id _; rfl
  | cons r rs ih =>
    intro id h
    have h0 : id ∈ sel := by simpa using h 0 (by simp)
    have hrest : ∀ j, j < rs.length → id + 1 + j ∈ sel := by
      intro j hj
      have := h (j + 1) (by simp; omega)
      rwa [show id + (j + 1) = id + 1 + j by omega] at this
    simp [select_rows, h0, ih (id + 1) hrest]

theorem match_all_select_exact : select_exact match_all := by
  intro results checker slice
  simp only [select, total_rows_append, total_rows, match_all, rank, Nat.card_Ico]
  cases slice with
  | invalid => simp [table_slice.filter, table_slice.rows, table_slice.data]
  | batch m l o d =>
    simp only [table_slice.filter, table_slice.rows, table_slice.data, table_slice.offset]
    rw [select_rows_all _ d o (by intro j hj; simp [Finset.mem_Ico]; omega)]
    omega

/-- C2: in every state reachable from the initial state by the handlers of the
coordinator (whatever messages arrive, in whatever order), `cached` equals the sum of
the row counts of the batches in the Result Buffer, given that `select` appends
batches whose rows total `rank(selection)`. -/
theorem cached_matches_buffer (P : primitives) (hP : select_exact P)
    (options : query_options) (expr : Nat) (w : world)
    (h : reachable P any_environment (world.start options expr) w) :
    w.exporter.query.cached = total_rows w.exporter.results := by
  induction h with
  | start => rfl
  | @step w e _ _ _ ih => exact consistent_exporter P hP w.exporter e ih

/-- Witness for C2: after `extract(5)` five of ten matching rows stay buffered. -/
theorem cached_matches_buffer_witness :
    select_exact match_all ∧
    reachable match_all any_environment (world.start historical_query 0)
      ((world.start historical_query 0).after match_all demand_trace) ∧
    total_rows
      ((world.start historical_query 0).after match_all demand_trace).exporter.results = 5 ∧
    ((world.start historical_query 0).after match_all demand_trace).exporter.query.cached
      = total_rows
          ((world.start historical_query 0).after match_all demand_trace).exporter.results :=
  ⟨match_all_select_exact,
   reachable_after _ _ _ _ _ reachable.start (by decide), by decide,
   cached_matches_buffer match_all match_all_select_exact historical_query 0 _
     (reachable_after _ _ _ _ _ reachable.start (by decide))⟩

/-! ## Hit replenishment and the completion signal of the Index -/

/-- The guard chain of `request_more_hits`, case by case. -/
theorem request_more_hits_cases (st : exporter_state)
    (h1 : st.query.received ≤ st.query.expected)
    (h2 : st.query.lookups_complete ≤ st.query.lookups_issued) :
    (request_more_hits st).disp = .returned ∧
    (partition_requests (request_more_hits st).out ≠ [] ↔
      (has_historical_option st.options = true ∧ 0 < st.query.requested ∧
        st.query.lookups_issued = st.query.lookups_complete ∧
        st.query.received < st.query.expected)) ∧
    ((has_historical_option st.options = true ∧ 0 < st.query.requested ∧
        st.query.lookups_issued = st.query.lookups_complete ∧
        st.query.received < st.query.expected) →
      request_more_hits st =
        ⟨{ st with query := { st.query with
            scheduled := min (st.query.expected - st.query.received) 2 } },
         [.index_request st.id (min (st.query.expected - st.query.received) 2)],
         .returned⟩ ∧
      1 ≤ min (st.query.expected - st.query.received) 2 ∧
      min (st.query.expected - st.query.received) 2 ≤ 2) ∧
    (¬ (has_historical_option st.options = true ∧ 0 < st.query.requested ∧
        st.query.lookups_issued = st.query.lookups_complete ∧
        st.query.received < st.query.expected) →
      request_more_hits st = ⟨st, [], .returned⟩) := by
  by_cases hh : has_historical_option st.options = true
  · by_cases hr : st.query.requested = 0
    · have heq : request_more_hits st = ⟨st, [], .returned⟩ := by
        simp [request_more_hits, hh, hr]
      rw [heq]
      refine ⟨rfl, ?_, ?_, fun _ => rfl⟩
      · simp [partition_requests, hr]
      · rintro ⟨_, h, _⟩; omega
    · by_cases hl : st.query.lookups_issued > st.query.lookups_complete
      · have heq : request_more_hits st = ⟨st, [], .returned⟩ := by
          simp [request_more_hits, hh, hr, hl]
        rw [heq]
        refine ⟨rfl, ?_, ?_, fun _ => rfl⟩
        · simp only [partition_requests, ne_eq, not_true_eq_false, false_iff]
          rintro ⟨_, _, h, _⟩; omega
        · rintro ⟨_, _, h, _⟩; omega
      · have hleq : st.query.lookups_issued = st.query.lookups_complete := by omega
        by_cases he : st.query.received = st.query.expected
        · have heq : request_more_hits st = ⟨st, [], .returned⟩ := by
            simp [request_more_hits, hh, hr, hleq, he]
          rw [heq]
          refine ⟨rfl, ?_, ?_, fun _ => rfl⟩
          · simp only [partition_requests, ne_eq, not_true_eq_false, false_iff]
            rintro ⟨_, _, _, h⟩; omega
          · rintro ⟨_, _, _, h⟩; omega
        · have hlt : st.query.received < st.query.expected := by omega
          have heq : request_more_hits st =
              ⟨{ st with query := { st.query with
                  scheduled := min (st.query.expected - st.query.received) 2 } },
               [.index_request st.id (min (st.query.expected - st.query.received) 2)],
               .returned⟩ := by
            simp [request_more_hits, hh, hr, hleq, he, hlt]
          rw [heq]
          refine ⟨rfl, ?_, ?_, ?_⟩
          · simp only [partition_requests, ne_eq, reduceCtorEq, not_false_eq_true, true_iff]
            exact ⟨hh, by omega, hleq, hlt⟩
          · intro _
            exact ⟨rfl, by omega, by omega⟩
          · intro hn
            exact absurd ⟨hh, by omega, hleq, hlt⟩ hn
  · have heq : request_more_hits st = ⟨st, [], .returned⟩ := by
      simp [request_more_hits, hh]
    rw [heq]
    refine ⟨rfl, ?_, ?_, fun _ => rfl⟩
    · simp only [partition_requests, ne_eq, not_true_eq_false, false_iff]
      rintro ⟨h, _⟩; exact hh h
    · rintro ⟨h, _⟩; exact absurd h hh

/-- C6: in a state with `received <= expected` and `lookups_complete <= lookups_issued`
`request_more_hits` returns (no assertion fails) and sends a partition request exactly
when the query is historical, `requested > 0`, no Archive round-trip is outstanding
and `received < expected`; the request then asks for `min(expected - received, 2)`
partitions, a count between 1 and 2 that is stored in `scheduled`; in every other case
the state is unchanged and nothing is sent. -/
theorem request_more_hits_guards (st : exporter_state)
    (h1 : st.query.received ≤ st.query.expected)
    (h2 : st.query.lookups_complete ≤ st.query.lookups_issued) :
    (request_more_hits st).disp = .returned ∧
    (partition_requests (request_more_hits st).out ≠ [] ↔
      (has_historical_option st.options = true ∧ 0 < st.query.requested ∧
        st.query.lookups_issued = st.query.lookups_complete ∧
        st.query.received < st.query.expected)) ∧
    ((has_historical_option st.options = true ∧ 0 < st.query.requested ∧
        st.query.lookups_issued = st.query.lookups_complete ∧
        st.query.received < st.query.expected) →
      request_more_hits st =
        ⟨{ st with query := { st.query with
            scheduled := min (st.query.expected - st.query.received) 2 } },
         [.index_request st.id (min (st.query.expected - st.query.received) 2)],
         .returned⟩ ∧
      1 ≤ min (st.query.expected - st.query.received) 2 ∧
      min (st.query.expected - st.query.received) 2 ≤ 2) ∧
    (¬ (has_historical_option st.options = true ∧ 0 < st.query.requested ∧
        st.query.lookups_issued = st.query.lookups_complete ∧
        st.query.received < st.query.expected) →
      request_more_hits st = ⟨st, [], .returned⟩) :=
  request_more_hits_cases st h1 h2

/-- Witness for C6: ten partitions expected, none received, one row requested. -/
theorem request_more_hits_guards_witness :
    awaiting_hits.query.received ≤ awaiting_hits.query.expected ∧
    awaiting_hits.query.lookups_complete ≤ awaiting_hits.query.lookups_issued ∧
    (request_more_hits awaiting_hits).out = [.index_request 42 2] ∧
    (request_more_hits awaiting_hits).disp = .returned :=
  ⟨by decide, by decide, by decide,
   (request_more_hits_guards awaiting_hits (by decide) (by decide)).1⟩

/-- C5: the Index-done handler defers while an Archive round-trip is outstanding: if
`lookups_issued != lookups_complete` it skips the message, leaving the state unchanged
and sending nothing; otherwise `received` grows by exactly `scheduled`, and if it is
then still below `expected` the handler goes on as `request_more_hits`, which for a
historical query with `requested > 0` asks the Index for
`min(expected - received, 2)` more partitions. -/
theorem index_done_defers (st : exporter_state) :
    (st.query.lookups_issued ≠ st.query.lookups_complete →
      on_done st = ⟨st, [], .skipped⟩) ∧
    (st.query.lookups_issued = st.query.lookups_complete →
      (on_done st).st.query.received = st.query.received + st.query.scheduled ∧
      (on_done st).disp = .returned ∧
      (st.query.received + st.query.scheduled < st.query.expected →
        on_done st = request_more_hits { st with query := { st.query with
            received := st.query.received + st.query.scheduled } } ∧
        (has_historical_option st.options = true → 0 < st.query.requested →
          (on_done st).out = [.index_request st.id
            (min (st.query.expected - (st.query.received + st.query.scheduled)) 2)]))) := by
  constructor
  · intro hne
    simp [on_done, hne]
  · intro heq
    by_cases hlt : st.query.received + st.query.scheduled < st.query.expected
    · have hcall : on_done st = request_more_hits { st with query := { st.query with
            received := st.query.received + st.query.scheduled } } := by
        simp [on_done, heq, hlt]
      obtain ⟨hdisp, _, hsend, hidle⟩ := request_more_hits_cases
        { st with query := { st.query with
            received := st.query.received + st.query.scheduled } }
        (Nat.le_of_lt hlt) (Nat.le_of_eq heq.symm)
      refine ⟨?_, ?_, fun _ => ⟨hcall, ?_⟩⟩
      · rw [hcall]
        by_cases hc : has_historical_option st.options = true ∧ 0 < st.query.requested
        · rw [(hsend ⟨hc.1, hc.2, heq, hlt⟩).1]
        · rw [hidle (by rintro ⟨a, b, _, _⟩; exact hc ⟨a, b⟩)]
      · rw [hcall]
        exact hdisp
      · intro hh hr
        rw [hcall, (hsend ⟨hh, hr, heq, hlt⟩).1]
    · refine ⟨?_, ?_, fun h => absurd h hlt⟩
      · simp only [on_done, heq, ne_eq, not_true_eq_false, if_false, hlt]
        split_ifs <;> simp [outcome.and_then, shutdown] <;> split_ifs <;> rfl
      · simp only [on_done, heq, ne_eq, not_true_eq_false, if_false, hlt]
        split_ifs <;> simp [outcome.and_then, shutdown] <;> split_ifs <;> rfl

/-- Witness for C5: with an Archive round-trip outstanding the `done` is skipped; with
none outstanding, `received` grows by `scheduled` and two more partitions are asked
for. -/
theorem index_done_defers_witness :
    on_done { awaiting_hits with query := { awaiting_hits.query with lookups_issued := 1 } }
      = ⟨{ awaiting_hits with query := { awaiting_hits.query with lookups_issued := 1 } },
         [], .skipped⟩ ∧
    (on_done { awaiting_hits with query := { awaiting_hits.query with scheduled := 5 } }).out
      = [.index_request 42 2] :=
  ⟨(index_done_defers _).1 (by decide),
   (((index_done_defers
      { awaiting_hits with query := { awaiting_hits.query with scheduled := 5 } }).2
        (by decide)).2.2 (by decide)).2 (by decide) (by decide)⟩

/-! ## What `ship_results` leaves alone -/

theorem fetch_next_frame (st st1 : exporter_state) (slice : table_slice)
    (h : fetch_next st = .ok (slice, st1)) :
    st1 = { st with results := st1.results } := by
  unfold fetch_next at h
  cases hres : st.results with
  | nil => simp [hres] at h
  | cons head rest =>
    simp only [hres] at h
    split_ifs at h <;>
      (simp only [Except.ok.injEq, Prod.mk.injEq] at h
       obtain ⟨_, rfl⟩ := h
       rfl)

theorem fetch_next_error (st : exporter_state) (site : assertion_site)
    (h : fetch_next st = .error site) : site.in_ship_results = true := by
  unfold fetch_next at h
  cases hres : st.results with
  | nil =>
    simp only [hres, Except.error.injEq] at h
    subst h
    rfl
  | cons head rest =>
    simp only [hres] at h
    split_ifs at h <;>
      (simp only [Except.error.injEq] at h
       subst h
       rfl)

/-- The loop of `ship_results` sends only batches, changes only the buffer and the
counters `cached`, `requested` and `shipped`, and can only fail one of its own
assertions. -/
theorem ship_loop_frame (fuel : Nat) : ∀ st : exporter_state,
    (∃ ships : List table_slice, (ship_loop fuel st).out = ships.map effect.ship) ∧
    (ship_loop fuel st).st =
      { st with results := (ship_loop fuel st).st.results,
                query := { st.query with
                  cached := (ship_loop fuel st).st.query.cached,
                  requested := (ship_loop fuel st).st.query.requested,
                  shipped := (ship_loop fuel st).st.query.shipped } } ∧
    (∀ site, (ship_loop fuel st).disp = .aborted site → site.in_ship_results = true) := by
  induction fuel with
  | zero =>
    intro st
    unfold ship_loop
    split_ifs
    · exact ⟨⟨[], rfl⟩, rfl, by intro site h; simp at h⟩
    · exact ⟨⟨[], rfl⟩, rfl, by intro site h; simp at h⟩
  | succ fuel ih =>
    intro st
    by_cases hg : 0 < st.query.requested ∧ 0 < st.query.cached
    · cases hf : fetch_next st with
      | error site =>
        rw [ship_loop_fetch_error fuel st site hg hf]
        refine ⟨⟨[], rfl⟩, rfl, ?_⟩
        intro s hs
        simp only [disposition.aborted.injEq] at hs
        subst hs
        exact fetch_next_error st _ hf
      | ok p =>
        obtain ⟨slice, st1⟩ := p
        have hfr := fetch_next_frame st st1 slice hf
        by_cases hc : slice.rows ≤ st1.query.cached
        · rw [ship_loop_iter fuel st st1 slice hg hf hc]
          generalize hst2 : ({ st1 with query := { st1.query with
                          cached := st1.query.cached - slice.rows,
                          requested := st1.query.requested - slice.rows,
                          shipped := st1.query.shipped + slice.rows } } : exporter_state)
            = st2
          obtain ⟨⟨ships, h1⟩, h2, h3⟩ := ih st2
          refine ⟨⟨slice :: ships, by simp [h1]⟩, ?_, h3⟩
          show (ship_loop fuel st2).st = _
          rw [h2, ← hst2, hfr]
        · rw [ship_loop_rows_error fuel st st1 slice hg hf hc]
          refine ⟨⟨[], rfl⟩, ?_, ?_⟩
          · show st1 = _
            rw [hfr]
          · intro s hs
            simp only [disposition.aborted.injEq] at hs
            subst hs
            rfl
    · rw [ship_loop_exit _ _ hg]
      exact ⟨⟨[], rfl⟩, rfl, by intro site h; simp at h⟩

theorem ship_results_frame (st : exporter_state) :
    (∃ ships : List table_slice, (ship_results st).out = ships.map effect.ship) ∧
    (ship_results st).st =
      { st with results := (ship_results st).st.results,
                query := { st.query with
                  cached := (ship_results st).st.query.cached,
                  requested := (ship_results st).st.query.requested,
                  shipped := (ship_results st).st.query.shipped } } ∧
    (∀ site, (ship_results st).disp = .aborted site → site.in_ship_results = true) :=
  ship_loop_frame _ st

/-! ## Archive round-trips -/

theorem lookups_sent_append (a b : List effect) :
    lookups_sent (a ++ b) = lookups_sent a + lookups_sent b := by
  induction a with
  | nil => simp [lookups_sent]
  | cons e rest ih => cases e <;> simp [lookups_sent, ih]; omega

theorem lookups_sent_ships (ships : List table_slice) :
    lookups_sent (ships.map effect.ship) = 0 := by
  induction ships with
  | nil => rfl
  | cons s rest ih => simpa [lookups_sent] using ih

theorem lookup_frame_refl (st : exporter_state) (d : disposition)
    (hd : d ≠ .aborted .lookups_equal) : lookup_frame st ⟨st, [], d⟩ :=
  ⟨rfl, rfl, fun _ => hd⟩

theorem lookup_frame_and_then (st : exporter_state) (r : outcome)
    (f : exporter_state → outcome) (h : lookup_frame st r)
    (hf : ∀ s, lookup_frame s (f s)) : lookup_frame st (r.and_then f) := by
  unfold outcome.and_then
  split
  · obtain ⟨h1, h2, _⟩ := h
    obtain ⟨g1, g2, g3⟩ := hf r.st
    refine ⟨?_, ?_, ?_⟩
    · simp only [lookups_sent_append]; omega
    · simp only; omega
    · intro hle
      exact g3 (by omega)
  · exact h

theorem lookup_frame_ship_results (st : exporter_state) :
    lookup_frame st (ship_results st) := by
  obtain ⟨⟨ships, h1⟩, h2, h3⟩ := ship_results_frame st
  refine ⟨?_, ?_, ?_⟩
  · have := congrArg (fun s => s.query.lookups_issued) h2
    simpa [h1, lookups_sent_ships] using this
  · exact congrArg (fun s => s.query.lookups_complete) h2
  · intro _ habs
    have := h3 _ habs
    simp [assertion_site.in_ship_results] at this

theorem lookup_frame_request_more_hits (st : exporter_state) :
    lookup_frame st (request_more_hits st) := by
  unfold request_more_hits
  split_ifs <;> first
    | (refine ⟨rfl, rfl, fun _ => ?_⟩
       simp
       done)
    | exact ⟨rfl, rfl, fun hle => by exfalso; omega⟩

theorem lookup_frame_shutdown (st : exporter_state) : lookup_frame st (shutdown st) := by
  unfold shutdown
  split_ifs
  · exact lookup_frame_refl st _ (by simp)
  · exact ⟨rfl, rfl, fun _ => by simp⟩

theorem lookup_frame_check_candidates (P : primitives) (st : exporter_state) (c : Nat)
    (slice : table_slice) : lookup_frame st (check_candidates P st c slice) := by
  unfold check_candidates
  simp only
  split_ifs
  · exact ⟨rfl, rfl, fun _ => by simp⟩
  · exact lookup_frame_ship_results _

theorem lookup_frame_handle_batch (P : primitives) (st : exporter_state)
    (slice : table_slice) : lookup_frame st (handle_batch P st slice) := by
  unfold handle_batch
  split_ifs
  · exact lookup_frame_refl st _ (by simp)
  · split
    · exact lookup_frame_check_candidates P st _ slice
    · split
      · exact lookup_frame_and_then st _ _ (lookup_frame_ship_results st)
          lookup_frame_shutdown
      · exact lookup_frame_check_candidates P _ _ slice

theorem lookup_frame_on_extract (st : exporter_state) (n : Nat) :
    lookup_frame st (on_extract st n) := by
  unfold on_extract
  split_ifs
  · exact lookup_frame_refl st _ (by simp)
  · exact lookup_frame_refl st _ (by simp)
  · exact lookup_frame_and_then _ _ _ (lookup_frame_ship_results _)
      lookup_frame_request_more_hits
  · exact lookup_frame_refl st _ (by simp)

theorem lookup_frame_on_extract_all (st : exporter_state) :
    lookup_frame st (on_extract_all st) := by
  unfold on_extract_all
  split_ifs
  · exact lookup_frame_refl st _ (by simp)
  · exact lookup_frame_and_then _ _ _ (lookup_frame_ship_results _)
      lookup_frame_request_more_hits

theorem lookup_frame_on_done (st : exporter_state) : lookup_frame st (on_done st) := by
  unfold on_done
  simp only
  split_ifs <;> first
    | exact lookup_frame_refl st _ (by simp)
    | exact lookup_frame_request_more_hits _
    | exact lookup_frame_and_then st _ _ ⟨rfl, rfl, fun _ => by simp⟩ lookup_frame_shutdown

theorem lookup_frame_on_hits (st : exporter_state) (hs : ids) :
    lookup_frame st (on_hits st hs) := by
  unfold on_hits
  simp only
  split_ifs <;> refine ⟨?_, rfl, fun _ => by simp⟩ <;>
    simp [lookups_sent, lookups_sent_append]

theorem lookup_frame_on_run_reply (st : exporter_state) (l p s : Nat) :
    lookup_frame st (on_run_reply st l p s) := by
  unfold on_run_reply
  simp only
  split_ifs
  · exact ⟨rfl, rfl, fun _ => by simp⟩
  · exact lookup_frame_shutdown _

/-- Every handler but the Archive's `done` keeps the books of Archive round-trips. -/
theorem lookup_frame_exporter (P : primitives) (st : exporter_state) (e : event)
    (he : ∀ sender err, e ≠ .archive_done sender err) :
    lookup_frame st (exporter P st e) := by
  cases e with
  | archive_done sender err => exact absurd rfl (he sender err)
  | extract_all => exact lookup_frame_on_extract_all st
  | extract n => exact lookup_frame_on_extract st n
  | stream slice => exact lookup_frame_handle_batch P st slice
  | slice slice => exact lookup_frame_handle_batch P st slice
  | hits hs => exact lookup_frame_on_hits st hs
  | done => exact lookup_frame_on_done st
  | run_reply l p s => exact lookup_frame_on_run_reply st l p s
  | run =>
    simp only [exporter]
    split_ifs <;> exact ⟨by simp [lookups_sent], rfl, fun _ => by simp⟩
  | archive h =>
    simp only [exporter]
    split_ifs <;> exact ⟨by simp [lookups_sent], rfl, fun _ => by simp⟩
  | index h =>
    simp only [exporter]
    split_ifs <;> exact ⟨by simp [lookups_sent], rfl, fun _ => by simp⟩
  | _ => exact ⟨by simp [exporter, shutdown_error, lookups_sent], rfl, fun _ => by
      simp [exporter, shutdown_error]⟩

theorem on_archive_done_lookups (st : exporter_state) (sender : Nat) :
    (on_archive_done st sender).out = [] ∧
    (on_archive_done st sender).st.query.lookups_issued = st.query.lookups_issued ∧
    (on_archive_done st sender).st.query.lookups_complete
      ≤ st.query.lookups_complete + 1 ∧
    (on_archive_done st sender).disp ≠ .aborted .lookups_equal := by
  unfold on_archive_done
  simp only
  split_ifs <;> simp

theorem lookups_invariant (P : primitives) (w0 w : world)
    (h : reachable P archive_contract w0 w)
    (h0 : w0.exporter.query.lookups_complete + w0.archive_owed
            ≤ w0.exporter.query.lookups_issued ∧
          w0.exporter.query.lookups_issued = lookups_sent w0.sent ∧
          w0.fault ≠ some .lookups_equal) :
    w.exporter.query.lookups_complete + w.archive_owed
      ≤ w.exporter.query.lookups_issued ∧
    w.exporter.query.lookups_issued = lookups_sent w.sent ∧
    w.fault ≠ some .lookups_equal := by
  induction h with
  | start => exact h0
  | @step w e _ _ henv ih =>
    obtain ⟨ih1, ih2, _⟩ := ih
    have hfault : ∀ d : disposition, d ≠ .aborted .lookups_equal →
        d.fault ≠ some assertion_site.lookups_equal := by
      intro d hd
      cases d with
      | aborted site =>
        simp only [disposition.fault, ne_eq, Option.some.injEq]
        rintro rfl
        exact hd rfl
      | _ => simp [disposition.fault]
    by_cases hx : ∃ sender err, e = .archive_done sender err
    · obtain ⟨sender, err, rfl⟩ := hx
      obtain ⟨g1, g2, g3, g4⟩ := on_archive_done_lookups w.exporter sender
      have howed : 0 < w.archive_owed := by simpa [archive_contract] using henv
      refine ⟨?_, ?_, hfault _ g4⟩
      · show (on_archive_done w.exporter sender).st.query.lookups_complete
            + (w.archive_owed + lookups_sent (on_archive_done w.exporter sender).out - 1)
            ≤ (on_archive_done w.exporter sender).st.query.lookups_issued
        rw [g1, g2]
        simp only [lookups_sent]
        omega
      · show (on_archive_done w.exporter sender).st.query.lookups_issued
            = lookups_sent (w.sent ++ (on_archive_done w.exporter sender).out)
        rw [g1, g2, List.append_nil]
        exact ih2
    · obtain ⟨g1, g2, g3⟩ := lookup_frame_exporter P w.exporter e
        (by intro sender err he; exact hx ⟨sender, err, he⟩)
      have hsub : e.answers_lookup = 0 := by
        cases e <;> first | rfl | exact absurd ⟨_, _, rfl⟩ hx
      refine ⟨?_, ?_, hfault _ (g3 (by omega))⟩
      · show (exporter P w.exporter e).st.query.lookups_complete
            + (w.archive_owed + lookups_sent (exporter P w.exporter e).out
                - e.answers_lookup)
            ≤ (exporter P w.exporter e).st.query.lookups_issued
        rw [hsub]
        omega
      · show (exporter P w.exporter e).st.query.lookups_issued
            = lookups_sent (w.sent ++ (exporter P w.exporter e).out)
        rw [lookups_sent_append]
        omega

/-- C10: when the Archive sends one `done` per hit-set forwarded to it, every state
reachable from the initial state has `lookups_complete <= lookups_issued`, the counter
`lookups_issued` equals the number of hit-sets forwarded to the Archive so far, and no
run ends at the assertion `lookups_issued == lookups_complete` of
`request_more_hits`. -/
theorem lookups_complete_le_issued (P : primitives) (options : query_options)
    (expr : Nat) (w : world)
    (h : reachable P archive_contract (world.start options expr) w) :
    w.exporter.query.lookups_complete ≤ w.exporter.query.lookups_issued ∧
    w.exporter.query.lookups_issued = lookups_sent w.sent ∧
    w.fault ≠ some .lookups_equal := by
  obtain ⟨h1, h2, h3⟩ := lookups_invariant P _ w h
    ⟨Nat.le_refl 0, rfl, by simp [world.start]⟩
  exact ⟨by omega, h2, h3⟩

/-- Witness for C10: one hit-set forwarded and answered by the Archive. -/
theorem lookups_complete_le_issued_witness :
    reachable match_all archive_contract (world.start historical_query 0)
      ((world.start historical_query 0).after match_all lookup_trace) ∧
    ((world.start historical_query 0).after match_all lookup_trace).exporter.query.lookups_complete
      = 1 ∧
    (((world.start historical_query 0).after match_all lookup_trace).exporter.query.lookups_complete
      ≤ ((world.start historical_query 0).after match_all lookup_trace).exporter.query.lookups_issued ∧
    ((world.start historical_query 0).after match_all lookup_trace).exporter.query.lookups_issued
      = lookups_sent ((world.start historical_query 0).after match_all lookup_trace).sent ∧
    ((world.start historical_query 0).after match_all lookup_trace).fault
      ≠ some .lookups_equal) :=
  ⟨reachable_after _ _ _ _ _ reachable.start (by decide), by decide,
   lookups_complete_le_issued match_all historical_query 0 _
     (reachable_after _ _ _ _ _ reachable.start (by decide))⟩

/-! ## Partition requests that overlap -/

/-- C4: a run that keeps the contracts of Index and Archive and ends at the failed
assertion `!finished(query)` of the Archive-done handler.  Before the last message
`received = expected = 2` already holds with one Archive round-trip outstanding; the
Archive's `done` completes it and the state it produces is finished. -/
theorem archive_done_reaches_finished :
    reachable match_all protocol (world.start unified_query 0)
      ((world.start unified_query 0).after match_all early_finish_trace) ∧
    ((world.start unified_query 0).after match_all early_finish_trace).fault = none ∧
    protocol ((world.start unified_query 0).after match_all early_finish_trace)
      (.archive_done 2 none) = true ∧
    finished (on_archive_done
      ((world.start unified_query 0).after match_all early_finish_trace).exporter 2).st.query
      = true ∧
    (((world.start unified_query 0).after match_all early_finish_trace).step match_all
      (.archive_done 2 none)).fault = some .not_finished :=
  ⟨reachable_after _ _ _ _ _ reachable.start (by decide!), by decide!, by decide!,
   by decide!, by decide!⟩

/-- C7: a run that keeps the contracts of Index and Archive after which two partition
requests of two partitions each, sent by `request_more_hits`, are unanswered, next to
the initial schedule of five. -/
theorem two_requests_in_flight :
    reachable match_all protocol (world.start historical_query 0)
      ((world.start historical_query 0).after match_all double_extract_trace) ∧
    partition_requests
      ((world.start historical_query 0).after match_all double_extract_trace).sent
      = [2, 2] ∧
    ((world.start historical_query 0).after match_all double_extract_trace).index_owed
      = [5, 2, 2] ∧
    ((world.start historical_query 0).after match_all double_extract_trace).fault = none :=
  ⟨reachable_after _ _ _ _ _ reachable.start (by decide!), by decide!, by decide!,
   by decide!⟩

/-- C8: a run that keeps the contracts of Index and Archive after which the next
`done` of the Index answers the initial schedule of five partitions, and the handler
adds two to `received`. -/
theorem done_adds_wrong_schedule :
    reachable match_all protocol (world.start historical_query 0)
      ((world.start historical_query 0).after match_all early_extract_trace) ∧
    protocol ((world.start historical_query 0).after match_all early_extract_trace)
      .done = true ∧
    ((world.start historical_query 0).after match_all early_extract_trace).index_owed.head?
      = some 5 ∧
    ((world.start historical_query 0).after match_all early_extract_trace).exporter.query.received
      = 0 ∧
    (on_done
      ((world.start historical_query 0).after match_all early_extract_trace).exporter).st.query.received
      = 2 :=
  ⟨reachable_after _ _ _ _ _ reachable.start (by decide!), by decide!, by decide!,
   by decide!, by decide!⟩

/-- C9: a run that keeps the contracts of Index and Archive and reaches
`received = 4 > expected = 3`; the next `extract(5)` fails the assertion
`received < expected` of `request_more_hits`. -/
theorem received_exceeds_expected :
    reachable match_all protocol (world.start historical_query 0)
      ((world.start historical_query 0).after match_all stale_schedule_trace) ∧
    ((world.start historical_query 0).after match_all stale_schedule_trace).fault = none ∧
    ((world.start historical_query 0).after match_all stale_schedule_trace).exporter.query.received
      = 4 ∧
    ((world.start historical_query 0).after match_all stale_schedule_trace).exporter.query.expected
      = 3 ∧
    (((world.start historical_query 0).after match_all stale_schedule_trace).step match_all
      (.extract 5)).fault = some .received_lt_expected :=
  ⟨reachable_after _ _ _ _ _ reachable.start (by decide!), by decide!, by decide!,
   by decide!, by decide!⟩

/-! ## Finish detection -/

theorem finished_iff (qs : query_status) :
    finished qs = true ↔
      qs.received = qs.expected ∧ qs.lookups_issued = qs.lookups_complete := by
  simp [finished]

/-- C11: in a state with no Archive round-trip outstanding and
`received + scheduled == expected`, the Index-done handler sets `received` to
`expected` and changes nothing else, the state it leaves is finished, and it emits
(after the runtime report, if an accountant is registered) a normal shutdown when the
query has no continuous option and no shutdown when it has one. -/
theorem index_done_finishes (st : exporter_state)
    (h1 : st.query.lookups_issued = st.query.lookups_complete)
    (h2 : st.query.received + st.query.scheduled = st.query.expected) :
    (on_done st).st = { st with query := { st.query with received := st.query.expected } } ∧
    finished (on_done st).st.query = true ∧
    (on_done st).disp = .returned ∧
    (has_continuous_option st.options = false →
      (on_done st).out
        = (if st.accountant.isSome then [effect.report_runtime] else [])
          ++ [.exit_self .normal]) ∧
    (has_continuous_option st.options = true →
      (on_done st).out = (if st.accountant.isSome then [effect.report_runtime] else [])) := by
  cases hc : has_continuous_option st.options <;>
    simp [on_done, h1, h2, finished_iff, outcome.and_then, shutdown, hc]

/-- Witness for C11: four partitions expected, two `done` deliveries with
`scheduled = 2` each. -/
theorem index_done_finishes_witness :
    (on_done two_of_four).st.query.lookups_issued
      = (on_done two_of_four).st.query.lookups_complete ∧
    (on_done two_of_four).st.query.received + (on_done two_of_four).st.query.scheduled
      = (on_done two_of_four).st.query.expected ∧
    (on_done (on_done two_of_four).st).st.query.received = 4 ∧
    (on_done (on_done two_of_four).st).out = [.exit_self .normal] ∧
    finished (on_done (on_done two_of_four).st).st.query = true :=
  ⟨by decide, by decide, by decide, by decide,
   (index_done_finishes (on_done two_of_four).st (by decide) (by decide)).2.1⟩

/-! ## Extraction requests -/

/-- C18: `extract(0)` returns normally, leaving the state unchanged and sending
nothing; in a state with `requested == max_events` so do `extract(n)` for every `n`
and `extract()`. -/
theorem rejected_extract_absorbed (st : exporter_state) :
    on_extract st 0 = ⟨st, [], .returned⟩ ∧
    (st.query.requested = max_events →
      (∀ n, on_extract st n = ⟨st, [], .returned⟩) ∧
      on_extract_all st = ⟨st, [], .returned⟩) := by
  refine ⟨by simp [on_extract], fun h => ⟨fun n => ?_, by simp [on_extract_all, h]⟩⟩
  by_cases hn : n = 0 <;> simp [on_extract, hn, h]

/-- Witness for C18: a state in which everything was requested before. -/
theorem rejected_extract_absorbed_witness :
    unbounded.query.requested = max_events ∧
    on_extract unbounded 100 = ⟨unbounded, [], .returned⟩ ∧
    on_extract_all unbounded = ⟨unbounded, [], .returned⟩ :=
  ⟨rfl, ((rejected_extract_absorbed unbounded).2 rfl).1 100,
   ((rejected_extract_absorbed unbounded).2 rfl).2⟩

/-- C19: for `n > 0` and `requested < max_events`, `extract(n)` runs `ship_results`
(and then `request_more_hits`) on the state in which `requested` has grown, in 64-bit
arithmetic, by `min(max_events - n, n)`; that increment is at most `n`, it is 0 for
`n == max_events` and 1 for `n == max_events - 1`. -/
theorem extract_adds_clamped (st : exporter_state) (n : Nat) (hn : 0 < n)
    (hr : st.query.requested < max_events) :
    on_extract st n =
      (ship_results { st with query := { st.query with
          requested := (st.query.requested + min (max_events - n) n) % 2 ^ 64 } }).and_then
        request_more_hits ∧
    min (max_events - n) n ≤ n ∧
    (n = max_events → min (max_events - n) n = 0) ∧
    (n = max_events - 1 → min (max_events - n) n = 1) := by
  refine ⟨?_, Nat.min_le_right _ _, ?_, ?_⟩
  · have h0 : n ≠ 0 := by omega
    have h1 : st.query.requested ≠ max_events := by omega
    simp [on_extract, h0, h1, hr]
  · rintro rfl
    simp
  · rintro rfl
    decide

/-- Witness for C19: `extract(5)` in a state with ten rows buffered. -/
theorem extract_adds_clamped_witness :
    0 < 5 ∧ ten_cached.query.requested < max_events ∧
    on_extract ten_cached 5 =
      (ship_results { ten_cached with query := { ten_cached.query with
          requested := (ten_cached.query.requested + min (max_events - 5) 5) % 2 ^ 64 } }).and_then
        request_more_hits :=
  ⟨by decide, by decide, (extract_adds_clamped ten_cached 5 (by decide) (by decide)).1⟩

/-! ## Batch ingestion -/

theorem ship_results_idle (st : exporter_state) (h : st.query.requested = 0) :
    ship_results st = ⟨st, [], .returned⟩ :=
  ship_loop_exit _ st (by omega)

theorem request_more_hits_idle (st : exporter_state) (h : st.query.requested = 0) :
    request_more_hits st = ⟨st, [], .returned⟩ := by
  unfold request_more_hits
  split_ifs <;> rfl

theorem handle_batch_evaluates (P : primitives) (st : exporter_state)
    (slice : table_slice) (checker : Nat) (henc : slice.encoding ≠ .none)
    (hc : checker_for P st slice = some checker) :
    handle_batch P st slice =
      check_candidates P { st with checkers := checkers_after st slice checker }
        checker slice := by
  unfold checker_for at hc
  unfold handle_batch checkers_after
  simp only [henc, if_false]
  cases hl : st.checkers.lookup slice.layout with
  | some c =>
    simp only [hl, Option.some.injEq] at hc
    subst hc
    rfl
  | none =>
    simp only [hl] at hc
    cases ht : P.tailor st.expr slice.layout with
    | error e => simp [ht] at hc
    | ok x =>
      simp only [ht, Option.some.injEq] at hc
      subst hc
      rfl

theorem ship_results_processed (st : exporter_state) :
    (ship_results st).st.query.processed = st.query.processed :=
  congrArg (fun s => s.query.processed) (ship_results_frame st).2.1

/-- The rows that a selection marks are as many as its identifiers in the range of the
batch. -/
theorem select_rows_length (sel : ids) : ∀ (d : List Nat) (id : Nat),
    (select_rows sel id d).length = (sel ∩ Finset.Ico id (id + d.length)).card := by
  intro d
  induction d with
  | nil => intro id; simp [select_rows]
  | cons r rs ih =>
    intro id
    have hsplit : sel ∩ Finset.Ico id (id + (r :: rs).length)
        = (sel ∩ {id}) ∪ (sel ∩ Finset.Ico (id + 1) (id + 1 + rs.length)) := by
      ext x
      simp only [List.length_cons, Finset.mem_inter, Finset.mem_Ico, Finset.mem_union,
        Finset.mem_singleton]
      constructor
      · rintro ⟨hx, h1, h2⟩
        by_cases hxe : x = id
        · exact Or.inl ⟨hx, hxe⟩
        · exact Or.inr ⟨hx, by omega, by omega⟩
      · rintro (⟨hx, rfl⟩ | ⟨hx, h1, h2⟩)
        · exact ⟨hx, by omega, by omega⟩
        · exact ⟨hx, by omega, by omega⟩
    have hdisj : Disjoint (sel ∩ {id}) (sel ∩ Finset.Ico (id + 1) (id + 1 + rs.length)) := by
      rw [Finset.disjoint_left]
      intro x hx1 hx2
      simp only [Finset.mem_inter, Finset.mem_singleton, Finset.mem_Ico] at hx1 hx2
      omega
    rw [hsplit, Finset.card_union_of_disjoint hdisj, ← ih (id + 1)]
    by_cases hid : id ∈ sel
    · have : sel ∩ {id} = {id} := by
        ext x; simp only [Finset.mem_inter, Finset.mem_singleton]
        constructor
        · rintro ⟨_, h⟩; exact h
        · rintro rfl; exact ⟨hid, rfl⟩
      simp [select_rows, hid, this]
      omega
    · have : sel ∩ {id} = ∅ := by
        ext x; simp only [Finset.mem_inter, Finset.mem_singleton, Finset.not_mem_empty,
          iff_false, not_and]
        rintro hx rfl; exact hid hx
      simp [select_rows, hid, this]

theorem filter_rows_of_subset (sel : ids) (slice : table_slice)
    (h : sel ⊆ Finset.Ico slice.offset (slice.offset + slice.rows)) :
    (slice.filter sel).rows = rank sel := by
  cases slice with
  | invalid =>
    simp only [table_slice.offset, table_slice.rows, table_slice.data, List.length_nil,
      Nat.add_zero, Finset.Ico_self, Finset.subset_empty] at h
    simp [table_slice.filter, table_slice.rows, table_slice.data, rank, h]
  | batch m l o d =>
    simp only [table_slice.offset, table_slice.rows, table_slice.data] at h
    simp only [table_slice.filter, table_slice.rows, table_slice.data, rank,
      select_rows_length]
    rw [Finset.inter_eq_left.mpr h]

/-- C13: a valid batch whose schema has no cached checker, whose checker compiles and
whose selection has rank `k > 0`, handled in a state with `requested == 0`: the
handler returns having sent nothing, `processed` has grown by the rows of the batch
and `cached` by `k`, the checker is cached, and the Result Buffer is the old one with
the sub-batch of the matching rows (in batch order) appended at its tail; that
sub-batch has `k` rows when the selection lies within the batch. -/
theorem handle_batch_buffers (P : primitives) (st : exporter_state)
    (slice : table_slice) (x : Nat) (henc : slice.encoding ≠ .none)
    (hnew : st.checkers.lookup slice.layout = none)
    (hcompiles : P.tailor st.expr slice.layout = .ok x)
    (hk : 0 < rank (P.evaluate x slice)) (hreq : st.query.requested = 0) :
    handle_batch P st slice =
      ⟨{ st with
          checkers := (slice.layout, x) :: st.checkers,
          results := st.results ++ [slice.filter (P.evaluate x slice)],
          query := { st.query with
            processed := st.query.processed + slice.rows,
            cached := st.query.cached + rank (P.evaluate x slice) } },
       [], .returned⟩ ∧
    (slice.filter (P.evaluate x slice)).data
      = select_rows (P.evaluate x slice) slice.offset slice.data ∧
    (P.evaluate x slice ⊆ Finset.Ico slice.offset (slice.offset + slice.rows) →
      (slice.filter (P.evaluate x slice)).rows = rank (P.evaluate x slice)) := by
  refine ⟨?_, ?_, filter_rows_of_subset _ slice⟩
  · have hc : checker_for P st slice = some x := by simp [checker_for, hnew, hcompiles]
    rw [handle_batch_evaluates P st slice x henc hc]
    have hk0 : rank (P.evaluate x slice) ≠ 0 := by omega
    simp only [check_candidates, hk0, if_false, checkers_after, hnew, select]
    exact ship_results_idle _ hreq
  · cases slice <;> rfl

/-- Witness for C13: a batch of 100 rows of which the rows 10 to 19 match. -/
theorem handle_batch_buffers_witness :
    hundred_rows.encoding ≠ .none ∧
    (initial_state historical_query 0).checkers.lookup hundred_rows.layout = none ∧
    match_window.tailor (initial_state historical_query 0).expr hundred_rows.layout = .ok 0 ∧
    0 < rank (match_window.evaluate 0 hundred_rows) ∧
    (initial_state historical_query 0).query.requested = 0 ∧
    (handle_batch match_window (initial_state historical_query 0) hundred_rows).st.results
      = [.batch false 7 1000 [10, 11, 12, 13, 14, 15, 16, 17, 18, 19]] ∧
    (handle_batch match_window (initial_state historical_query 0) hundred_rows).st.query
      = { processed := 100, cached := 10 } ∧
    handle_batch match_window (initial_state historical_query 0) hundred_rows =
      ⟨{ initial_state historical_query 0 with
          checkers := (hundred_rows.layout, 0) ::
            (initial_state historical_query 0).checkers,
          results := (initial_state historical_query 0).results
            ++ [hundred_rows.filter (match_window.evaluate 0 hundred_rows)],
          query := { (initial_state historical_query 0).query with
            processed := (initial_state historical_query 0).query.processed
              + hundred_rows.rows,
            cached := (initial_state historical_query 0).query.cached
              + rank (match_window.evaluate 0 hundred_rows) } },
       [], .returned⟩ :=
  ⟨by decide, by decide, rfl, by decide!, rfl, by decide!, by decide!,
   (handle_batch_buffers match_window (initial_state historical_query 0) hundred_rows 0
      (by decide) (by decide) rfl (by decide!) rfl).1⟩

/-- C14: when `handle_batch` evaluates a batch (a valid batch for whose schema a checker
is cached or compiles), `processed` grows by exactly the rows of the batch, whatever
the selection; when the selection is empty the handler returns having sent nothing,
and apart from `processed` (and the checker cache, which holds the checker used) the
state is unchanged: buffer, `cached`, `requested`, `shipped` and the other counters. -/
theorem handle_batch_counts_processed (P : primitives) (st : exporter_state)
    (slice : table_slice) (checker : Nat) (henc : slice.encoding ≠ .none)
    (hc : checker_for P st slice = some checker) :
    (handle_batch P st slice).st.query.processed = st.query.processed + slice.rows ∧
    (rank (P.evaluate checker slice) = 0 →
      handle_batch P st slice =
        ⟨{ st with
            checkers := checkers_after st slice checker,
            query := { st.query with processed := st.query.processed + slice.rows } },
         [], .returned⟩) := by
  rw [handle_batch_evaluates P st slice checker henc hc]
  constructor
  · unfold check_candidates
    simp only
    split_ifs
    · rfl
    · rw [ship_results_processed]
  · intro h0
    simp [check_candidates, h0]

/-- Witness for C14: a ten-row batch none of whose rows the predicate matches. -/
theorem handle_batch_counts_processed_witness :
    ten_rows.encoding ≠ .none ∧
    checker_for match_none ten_cached ten_rows = some 0 ∧
    rank (match_none.evaluate 0 ten_rows) = 0 ∧
    handle_batch match_none ten_cached ten_rows =
      ⟨{ ten_cached with
          checkers := [(7, 0)],
          query := { ten_cached.query with processed := 10 } },
       [], .returned⟩ :=
  ⟨by decide, by decide, by decide,
   (handle_batch_counts_processed match_none ten_cached ten_rows 0 (by decide)
      (by decide)).2 (by decide)⟩

theorem max_events_eq : max_events = 18446744073709551615 := by decide

/-- C15: in a state with `requested == 0` whose counter `cached` agrees with the
buffer and whose head batch has more than `n` rows, where `0 < n` and
`min(max_events - n, n) = n`, `extract(n)` returns having sent exactly one message,
the batch of the first `n` rows of the head, to the sink; the head is replaced by the
remaining `rows - n` rows, the rest of the buffer is untouched, `shipped` has grown
and `cached` has shrunk by `n`, `requested` is 0 again and nothing else changed. -/
theorem extract_splits_head (st : exporter_state) (n : Nat) (head : table_slice)
    (rest : List table_slice) (hreq : st.query.requested = 0)
    (hres : st.results = head :: rest) (hn : 0 < n) (hlt : n < head.rows)
    (hclamp : min (max_events - n) n = n)
    (hinv : st.query.cached = total_rows st.results) :
    on_extract st n =
      ⟨{ st with
          results := (split head n).2 :: rest,
          query := { st.query with
            cached := st.query.cached - n,
            requested := 0,
            shipped := st.query.shipped + n } },
       [.ship (split head n).1], .returned⟩ ∧
    (split head n).1.data = head.data.take n ∧
    (split head n).1.rows = n ∧
    (split head n).2.data = head.data.drop n ∧
    (split head n).2.rows = head.rows - n ∧
    n ≤ st.query.cached := by
  have hM := max_events_eq
  have hrows1 : (split head n).1.rows = n := by
    simp only [table_slice.rows, split_fst_data, List.length_take]
    simp only [table_slice.rows] at hlt
    omega
  have hrows2 : (split head n).2.rows = head.rows - n := by
    simp only [table_slice.rows, split_snd_data, List.length_drop]
  have hcached : n ≤ st.query.cached := by
    rw [hinv, hres]
    simp only [total_rows]
    omega
  refine ⟨?_, split_fst_data head n, hrows1, split_snd_data head n, hrows2, hcached⟩
  have h0 : n ≠ 0 := by omega
  have h1 : st.query.requested ≠ max_events := by omega
  have h2 : st.query.requested < max_events := by omega
  have hmod : (st.query.requested + min (max_events - n) n) % 2 ^ 64 = n := by
    rw [hclamp, hreq, Nat.zero_add]
    apply Nat.mod_eq_of_lt
    have hle : min (max_events - n) n ≤ max_events - n := Nat.min_le_left _ _
    rw [hclamp] at hle
    omega
  have hstep : on_extract st n =
      (ship_results { st with query := { st.query with requested := n } }).and_then
        request_more_hits := by
    simp only [on_extract, h0, h1, h2, if_false, not_true_eq_false, hmod]
  rw [hstep]
  have hg : 0 < ({ st with query := { st.query with requested := n } } :
      exporter_state).query.requested ∧
      0 < ({ st with query := { st.query with requested := n } } :
      exporter_state).query.cached := by
    constructor
    · exact hn
    · show 0 < st.query.cached
      omega
  have hf := fetch_next_split { st with query := { st.query with requested := n } }
    head rest hres hlt
  have hship : ship_results { st with query := { st.query with requested := n } } =
      ⟨{ st with
          results := (split head n).2 :: rest,
          query := { st.query with
            cached := st.query.cached - n,
            requested := 0,
            shipped := st.query.shipped + n } },
       [.ship (split head n).1], .returned⟩ := by
    unfold ship_results
    rw [ship_loop_iter _ _ _ _ hg hf (by show (split head n).1.rows ≤ st.query.cached; omega),
      ship_loop_exit]
    · simp only [hrows1, Nat.sub_self]
    · simp [hrows1]
  rw [hship]
  simp only [outcome.and_then]
  rw [request_more_hits_idle _ rfl]
  rfl

/-- Witness for C15: `extract(5)` with a single ten-row batch buffered. -/
theorem extract_splits_head_witness :
    ten_cached.query.requested = 0 ∧ ten_cached.results = [ten_rows] ∧
    5 < ten_rows.rows ∧ min (max_events - 5) 5 = 5 ∧
    ten_cached.query.cached = total_rows ten_cached.results ∧
    (on_extract ten_cached 5).out = [.ship (.batch false 7 100 [0, 1, 2, 3, 4])] ∧
    (on_extract ten_cached 5).st.results = [.batch false 7 105 [5, 6, 7, 8, 9]] ∧
    (on_extract ten_cached 5).st.query = { cached := 5, shipped := 5, requested := 0 } ∧
    on_extract ten_cached 5 =
      ⟨{ ten_cached with
          results := (split ten_rows 5).2 :: [],
          query := { ten_cached.query with
            cached := ten_cached.query.cached - 5,
            requested := 0,
            shipped := ten_cached.query.shipped + 5 } },
       [.ship (split ten_rows 5).1], .returned⟩ :=
  ⟨rfl, rfl, by decide, by decide, by decide, by decide, by decide, by decide,
   (extract_splits_head ten_cached 5 ten_rows [] rfl rfl (by decide) (by decide)
      (by decide) (by decide)).1⟩

/-! ## The unbounded sentinel -/

/-- C16: a run that keeps the contracts of Index and Archive and ends with `extract()`,
which ships the ten buffered rows and leaves `requested = max_events - 10`; a
subsequent `extract(100)` is not ignored: it takes `requested` to 89 and sends a
partition request to the Index. -/
theorem extract_after_extract_all_not_ignored :
    reachable match_all protocol (world.start unified_query 0)
      ((world.start unified_query 0).after match_all unbounded_trace) ∧
    ((world.start unified_query 0).after match_all unbounded_trace).fault = none ∧
    ((world.start unified_query 0).after match_all unbounded_trace).delivered.getLast?
      = some .extract_all ∧
    ((world.start unified_query 0).after match_all unbounded_trace).exporter.query.requested
      = max_events - 10 ∧
    (on_extract
      ((world.start unified_query 0).after match_all unbounded_trace).exporter
      100).st.query.requested = 89 ∧
    partition_requests (on_extract
      ((world.start unified_query 0).after match_all unbounded_trace).exporter
      100).out = [2] :=
  ⟨reachable_after _ _ _ _ _ reachable.start (by decide!), by decide!, by decide!,
   by decide!, by decide!, by decide!⟩

/-- C17: a run that keeps the contracts of Index and Archive and ends with `extract()`,
which ships the ten buffered rows and leaves `requested = max_events - 10`; a second
`extract()` is not ignored: it sets `requested` to `max_events`, so the state differs
from the one after the first call, and it sends a partition request to the Index. -/
theorem extract_all_twice_differs :
    reachable match_all protocol (world.start unified_query 0)
      ((world.start unified_query 0).after match_all unbounded_trace) ∧
    ((world.start unified_query 0).after match_all unbounded_trace).fault = none ∧
    ((world.start unified_query 0).after match_all unbounded_trace).delivered.getLast?
      = some .extract_all ∧
    ((world.start unified_query 0).after match_all unbounded_trace).exporter.query.requested
      = max_events - 10 ∧
    (on_extract_all
      ((world.start unified_query 0).after match_all unbounded_trace).exporter).st.query.requested
      = max_events ∧
    (on_extract_all
      ((world.start unified_query 0).after match_all unbounded_trace).exporter).st
      ≠ ((world.start unified_query 0).after match_all unbounded_trace).exporter ∧
    partition_requests (on_extract_all
      ((world.start unified_query 0).after match_all unbounded_trace).exporter).out
      = [2] :=
  ⟨reachable_after _ _ _ _ _ reachable.start (by decide!), by decide!, by decide!,
   by decide!, by decide!, by decide!, by decide!⟩

/-- C20: a run of two `extract(2 ^ 63)` calls after which `requested = 2 ^ 64 - 2`, below
`max_events`; for `extract(2)` the exact sum `requested + min(max_events - 2, 2)` is
`2 ^ 64`, above `max_events`, and the handler leaves `requested = 0`. -/
theorem extract_add_wraps :
    reachable match_all protocol (world.start historical_query 0)
      ((world.start historical_query 0).after match_all wrap_trace) ∧
    ((world.start historical_query 0).after match_all wrap_trace).fault = none ∧
    ((world.start historical_query 0).after match_all wrap_trace).exporter.query.requested
      = 2 ^ 64 - 2 ∧
    ((world.start historical_query 0).after match_all wrap_trace).exporter.query.requested
      < max_events ∧
    max_events <
      ((world.start historical_query 0).after match_all wrap_trace).exporter.query.requested
        + min (max_events - 2) 2 ∧
    (on_extract ((world.start historical_query 0).after match_all wrap_trace).exporter
      2).st.query.requested = 0 ∧
    (on_extract ((world.start historical_query 0).after match_all wrap_trace).exporter
      2).disp = .returned :=
  ⟨reachable_after _ _ _ _ _ reachable.start (by decide!), by decide!, by decide!,
   by decide!, by decide!, by decide!, by decide!⟩

/-! ## Round-trips started in a finished state -/

theorem partition_requests_append (a b : List effect) :
    partition_requests (a ++ b) = partition_requests a ++ partition_requests b := by
  induction a with
  | nil => rfl
  | cons e rest ih => cases e <;> simp [partition_requests, ih]

theorem partition_requests_ships (ships : List table_slice) :
    partition_requests (ships.map effect.ship) = [] := by
  induction ships with
  | nil => rfl
  | cons s rest ih => simpa [partition_requests] using ih

theorem quiet_nil : quiet [] := ⟨rfl, rfl⟩

theorem quiet_append (a b : List effect) (ha : quiet a) (hb : quiet b) :
    quiet (a ++ b) := by
  obtain ⟨a1, a2⟩ := ha
  obtain ⟨b1, b2⟩ := hb
  exact ⟨by rw [partition_requests_append, a1, b1]; rfl,
    by rw [lookups_sent_append, a2, b2]⟩

theorem quiet_and_then (r : outcome) (f : exporter_state → outcome)
    (hr : quiet r.out) (hf : quiet (f r.st).out) : quiet (r.and_then f).out := by
  unfold outcome.and_then
  split
  · exact quiet_append _ _ hr hf
  · exact hr

theorem quiet_ship_results (st : exporter_state) : quiet (ship_results st).out := by
  obtain ⟨⟨ships, h⟩, _, _⟩ := ship_results_frame st
  rw [h]
  exact ⟨partition_requests_ships ships, lookups_sent_ships ships⟩

theorem ship_results_received (st : exporter_state) :
    (ship_results st).st.query.received = st.query.received ∧
    (ship_results st).st.query.expected = st.query.expected :=
  ⟨congrArg (fun s => s.query.received) (ship_results_frame st).2.1,
   congrArg (fun s => s.query.expected) (ship_results_frame st).2.1⟩

theorem quiet_shutdown (st : exporter_state) : quiet (shutdown st).out := by
  unfold shutdown
  split_ifs <;> exact ⟨rfl, rfl⟩

theorem quiet_request_more_hits (st : exporter_state)
    (h : st.query.received = st.query.expected) : quiet (request_more_hits st).out := by
  unfold request_more_hits
  split_ifs <;> exact quiet_nil

theorem request_more_hits_no_lookup (st : exporter_state) :
    lookups_sent (request_more_hits st).out = 0 := by
  unfold request_more_hits
  split_ifs <;> rfl

theorem quiet_check_candidates (P : primitives) (st : exporter_state) (c : Nat)
    (slice : table_slice) : quiet (check_candidates P st c slice).out := by
  unfold check_candidates
  simp only
  split_ifs
  · exact quiet_nil
  · exact quiet_ship_results _

theorem quiet_handle_batch (P : primitives) (st : exporter_state) (slice : table_slice) :
    quiet (handle_batch P st slice).out := by
  unfold handle_batch
  split_ifs
  · exact quiet_nil
  · split
    · exact quiet_check_candidates P st _ slice
    · split
      · exact quiet_and_then _ _ (quiet_ship_results st) (quiet_shutdown _)
      · exact quiet_check_candidates P _ _ slice

theorem quiet_on_extract (st : exporter_state) (n : Nat)
    (h : st.query.received = st.query.expected) : quiet (on_extract st n).out := by
  unfold on_extract
  split_ifs
  · exact quiet_nil
  · exact quiet_nil
  · refine quiet_and_then _ _ (quiet_ship_results _) (quiet_request_more_hits _ ?_)
    rw [(ship_results_received _).1, (ship_results_received _).2]
    exact h
  · exact quiet_nil

theorem quiet_on_extract_all (st : exporter_state)
    (h : st.query.received = st.query.expected) : quiet (on_extract_all st).out := by
  unfold on_extract_all
  split_ifs
  · exact quiet_nil
  · refine quiet_and_then _ _ (quiet_ship_results _) (quiet_request_more_hits _ ?_)
    rw [(ship_results_received _).1, (ship_results_received _).2]
    exact h

theorem quiet_on_done (st : exporter_state)
    (h : st.query.received = st.query.expected) : quiet (on_done st).out := by
  unfold on_done
  simp only
  split_ifs with h1 h2 h3 h4
  · exact quiet_nil
  · omega
  · exact quiet_and_then _ _ ⟨rfl, rfl⟩ (quiet_shutdown _)
  · exact quiet_and_then _ _ ⟨rfl, rfl⟩ (quiet_shutdown _)
  · exact ⟨rfl, rfl⟩
  · exact ⟨rfl, rfl⟩

theorem quiet_on_archive_done (st : exporter_state) (sender : Nat) :
    quiet (on_archive_done st sender).out := by
  unfold on_archive_done
  simp only
  split_ifs <;> exact quiet_nil

theorem quiet_on_run_reply (st : exporter_state) (l p s : Nat) :
    quiet (on_run_reply st l p s).out := by
  unfold on_run_reply
  simp only
  split_ifs
  · exact quiet_nil
  · exact quiet_shutdown _

theorem on_hits_no_request (st : exporter_state) (hs : ids) :
    partition_requests (on_hits st hs).out = [] := by
  unfold on_hits
  simp only
  split_ifs <;> simp [partition_requests, partition_requests_append]

theorem on_hits_forwards (st : exporter_state) (hs : ids)
    (h1 : st.query.expected ≠ 0) (h2 : rank hs ≠ 0) (h3 : rank (st.hits ∩ hs) = 0) :
    lookups_sent (on_hits st hs).out = 1 ∧
    (on_hits st hs).st.query.lookups_issued = st.query.lookups_issued + 1 := by
  unfold on_hits
  simp only [h1, h2, h3, if_false, ne_eq, not_true_eq_false]
  split_ifs <;> simp [lookups_sent, lookups_sent_append]

/-- What holds in every state in which the finished predicate holds: no handler
sends a partition request to the Index, and no handler but the hit-set handler
forwards a hit-set to the Archive; the hit-set handler has no finished check and
forwards every non-empty hit-set that passes its overlap check while `expected > 0`. -/
theorem finished_sends_no_partition_request (P : primitives) (st : exporter_state)
    (e : event) (hfin : finished st.query = true) :
    partition_requests (exporter P st e).out = [] ∧
    ((∀ hs, e ≠ .hits hs) → lookups_sent (exporter P st e).out = 0) ∧
    (∀ hs, e = .hits hs → st.query.expected ≠ 0 → rank hs ≠ 0 →
      rank (st.hits ∩ hs) = 0 → lookups_sent (exporter P st e).out = 1) := by
  have h := ((finished_iff st.query).mp hfin).1
  cases e with
  | hits hs =>
    refine ⟨on_hits_no_request st hs, fun hne => absurd rfl (hne hs), ?_⟩
    intro hs2 heq h1 h2 h3
    simp only [event.hits.injEq] at heq
    subst heq
    exact (on_hits_forwards st hs h1 h2 h3).1
  | extract_all =>
    exact ⟨(quiet_on_extract_all st h).1, fun _ => (quiet_on_extract_all st h).2,
      fun hs heq => by simp at heq⟩
  | extract n =>
    exact ⟨(quiet_on_extract st n h).1, fun _ => (quiet_on_extract st n h).2,
      fun hs heq => by simp at heq⟩
  | stream slice =>
    exact ⟨(quiet_handle_batch P st slice).1, fun _ => (quiet_handle_batch P st slice).2,
      fun hs heq => by simp at heq⟩
  | slice slice =>
    exact ⟨(quiet_handle_batch P st slice).1, fun _ => (quiet_handle_batch P st slice).2,
      fun hs heq => by simp at heq⟩
  | archive_done sender err =>
    exact ⟨(quiet_on_archive_done st sender).1, fun _ => (quiet_on_archive_done st sender).2,
      fun hs heq => by simp at heq⟩
  | done =>
    exact ⟨(quiet_on_done st h).1, fun _ => (quiet_on_done st h).2,
      fun hs heq => by simp at heq⟩
  | run_reply l p s =>
    exact ⟨(quiet_on_run_reply st l p s).1, fun _ => (quiet_on_run_reply st l p s).2,
      fun hs heq => by simp at heq⟩
  | run =>
    refine ⟨?_, fun _ => ?_, fun hs heq => by simp at heq⟩ <;>
      (simp only [exporter]; split_ifs <;> rfl)
  | archive a =>
    refine ⟨?_, fun _ => ?_, fun hs heq => by simp at heq⟩ <;>
      (simp only [exporter]; split_ifs <;> rfl)
  | index a =>
    refine ⟨?_, fun _ => ?_, fun hs heq => by simp at heq⟩ <;>
      (simp only [exporter]; split_ifs <;> rfl)
  | _ => exact ⟨rfl, fun _ => rfl, fun hs heq => by simp at heq⟩

/-- In the finished state after `finish_trace`, `extract(5)` sends no partition
request. -/
theorem finished_sends_no_partition_request_witness :
    finished ((world.start unified_query 0).after match_all finish_trace).exporter.query
      = true ∧
    partition_requests (exporter match_all
      ((world.start unified_query 0).after match_all finish_trace).exporter
      (.extract 5)).out = [] :=
  ⟨by decide!,
   (finished_sends_no_partition_request match_all
      ((world.start unified_query 0).after match_all finish_trace).exporter (.extract 5)
      (by decide!)).1⟩

/-- C12: a run of a started query that keeps the contracts of Index and Archive and
in which the finished predicate turns true twice and a hit-set is forwarded to the
Archive in a finished state.  `extract(1)` sends a partition request while the
initial schedule of one partition is unanswered and overwrites `scheduled` with 2, so
the `done` of the initial schedule gives `received = 2 = expected` while the Index
still owes the answer to that request: the predicate is true although the hit-set of
the second partition is to come.  That hit-set is forwarded (the predicate is false
again), the Archive's `done` makes the predicate true a second time, and the handler
of that `done` ends at its failed assertion `!finished(query)`. -/
theorem finished_state_forwards_hits :
    reachable match_all protocol (world.start unified_query 0)
      ((world.start unified_query 0).after match_all
        (finish_trace ++ [.hits {200}, .archive_done 2 none])) ∧
    0 < ((world.start unified_query 0).after match_all
      (finish_trace.take 5)).exporter.query.expected ∧
    finished ((world.start unified_query 0).after match_all
      (finish_trace.take 5)).exporter.query = false ∧
    ((world.start unified_query 0).after match_all (finish_trace.take 5)).index_owed
      = [1] ∧
    ((world.start unified_query 0).after match_all
      (finish_trace.take 6)).exporter.query.scheduled = 2 ∧
    ((world.start unified_query 0).after match_all (finish_trace.take 6)).index_owed
      = [1, 2] ∧
    finished ((world.start unified_query 0).after match_all finish_trace).exporter.query
      = true ∧
    ((world.start unified_query 0).after match_all finish_trace).exporter.query.received
      = 2 ∧
    ((world.start unified_query 0).after match_all finish_trace).index_owed = [2] ∧
    ((world.start unified_query 0).after match_all finish_trace).fault = none ∧
    protocol ((world.start unified_query 0).after match_all finish_trace) (.hits {200})
      = true ∧
    lookups_sent (exporter match_all
      ((world.start unified_query 0).after match_all finish_trace).exporter
      (.hits {200})).out = 1 ∧
    finished ((world.start unified_query 0).after match_all
      (finish_trace ++ [.hits {200}])).exporter.query = false ∧
    finished ((world.start unified_query 0).after match_all
      (finish_trace ++ [.hits {200}, .archive_done 2 none])).exporter.query = true ∧
    ((world.start unified_query 0).after match_all
      (finish_trace ++ [.hits {200}, .archive_done 2 none])).fault
      = some .not_finished :=
  ⟨reachable_after _ _ _ _ _ reachable.start (by decide!), by decide!, by decide!,
   by decide!, by decide!, by decide!, by decide!, by decide!, by decide!, by decide!,
   by decide!, by decide!, by decide!, by decide!, by decide!⟩

/-! ## The hit-set handler -/

/-- C21, as the code has it: the hit-set handler by cases.  With `expected == 0` the
hit-set is skipped before anything is written: state unchanged, nothing sent.  With
`expected > 0` and an empty hit-set the hit accumulator and `lookups_issued` are
unchanged and nothing goes to the Archive (the accountant, if registered, gets the
hit report).  With `expected > 0` and a non-empty hit-set that passes the overlap
assertion (`rank(hits & h) == 0`) the accumulator becomes its union with the hit-set,
`lookups_issued` grows by one and exactly one message goes to the Archive, which is
`archive_lookup h`, the source's `send(archive, hits, self)` with the coordinator as
reply target.  A non-empty hit-set that overlaps the accumulator fails the assertion:
accumulator and `lookups_issued` are unchanged and nothing goes to the Archive. -/
theorem hits_handler_cases (st : exporter_state) (h : ids) :
    (st.query.expected = 0 → on_hits st h = ⟨st, [], .skipped⟩) ∧
    (st.query.expected ≠ 0 → rank h = 0 →
      (on_hits st h).st.hits = st.hits ∧
      (on_hits st h).st.query.lookups_issued = st.query.lookups_issued ∧
      (on_hits st h).out
        = (if st.accountant.isSome then [.report_hits (decide (st.hits = ∅)) 0]
           else []) ∧
      lookups_of (on_hits st h).out = [] ∧
      (on_hits st h).disp = .returned) ∧
    (st.query.expected ≠ 0 → rank h ≠ 0 → rank (st.hits ∩ h) = 0 →
      (on_hits st h).st.hits = st.hits ∪ h ∧
      (on_hits st h).st.query.lookups_issued = st.query.lookups_issued + 1 ∧
      (on_hits st h).out
        = (if st.accountant.isSome then [.report_hits (decide (st.hits = ∅)) (rank h)]
           else []) ++ [.archive_lookup h] ∧
      lookups_of (on_hits st h).out = [h] ∧
      (on_hits st h).disp = .returned) ∧
    (st.query.expected ≠ 0 → rank h ≠ 0 → rank (st.hits ∩ h) ≠ 0 →
      (on_hits st h).st.hits = st.hits ∧
      (on_hits st h).st.query.lookups_issued = st.query.lookups_issued ∧
      lookups_of (on_hits st h).out = [] ∧
      (on_hits st h).disp = .aborted .hits_disjoint) := by
  refine ⟨fun h0 => by simp [on_hits, h0], fun h0 hr => ?_, fun h0 hr hd => ?_,
    fun h0 hr hd => ?_⟩
  · cases ha : st.accountant <;> simp [on_hits, h0, hr, ha, lookups_of]
  · cases ha : st.accountant <;> simp [on_hits, h0, hr, hd, ha, lookups_of]
  · cases ha : st.accountant <;> simp [on_hits, h0, hr, hd, ha, lookups_of]

/-- Witness for C21: a non-empty hit-set disjoint from the accumulator is forwarded. -/
theorem hits_handler_cases_witness :
    one_hit.query.expected ≠ 0 ∧ rank ({2, 3} : ids) ≠ 0 ∧
    rank (one_hit.hits ∩ {2, 3}) = 0 ∧
    (on_hits one_hit {2, 3}).st.hits = {1, 2, 3} ∧
    (on_hits one_hit {2, 3}).st.query.lookups_issued
      = one_hit.query.lookups_issued + 1 ∧
    lookups_of (on_hits one_hit {2, 3}).out = [{2, 3}] :=
  ⟨by decide, by decide, by decide, by decide,
   ((hits_handler_cases one_hit {2, 3}).2.2.1 (by decide) (by decide) (by decide)).2.1,
   ((hits_handler_cases one_hit {2, 3}).2.2.1 (by decide) (by decide)
     (by decide)).2.2.2.1⟩

/-- C21, as stated, fails: with `expected > 0` a non-empty hit-set that overlaps the
accumulator is not folded in and not forwarded; the handler ends at its assertion. -/
theorem overlapping_hits_not_forwarded :
    0 < one_hit.query.expected ∧ 0 < rank ({1, 2} : ids) ∧
    (on_hits one_hit {1, 2}).st.hits ≠ one_hit.hits ∪ {1, 2} ∧
    (on_hits one_hit {1, 2}).st.query.lookups_issued = one_hit.query.lookups_issued ∧
    lookups_sent (on_hits one_hit {1, 2}).out = 0 ∧
    (on_hits one_hit {1, 2}).disp = .aborted .hits_disjoint :=
  ⟨by decide, by decide, by decide, by decide, by decide, by decide⟩

/-! ## Accepted hit-sets -/

theorem lookups_of_append (a b : List effect) :
    lookups_of (a ++ b) = lookups_of a ++ lookups_of b := by
  induction a with
  | nil => rfl
  | cons e rest ih => cases e <;> simp [lookups_of, ih]

theorem lookups_of_ships (ships : List table_slice) :
    lookups_of (ships.map effect.ship) = [] := by
  induction ships with
  | nil => rfl
  | cons s rest ih => simpa [lookups_of] using ih

theorem hits_frame_refl (st : exporter_state) (d : disposition) :
    hits_frame st ⟨st, [], d⟩ := ⟨rfl, rfl⟩

theorem hits_frame_and_then (st : exporter_state) (r : outcome)
    (f : exporter_state → outcome) (h : hits_frame st r)
    (hf : ∀ s, hits_frame s (f s)) : hits_frame st (r.and_then f) := by
  unfold outcome.and_then
  split
  · obtain ⟨h1, h2⟩ := h
    obtain ⟨g1, g2⟩ := hf r.st
    exact ⟨g1.trans h1, by simp only [lookups_of_append, h2, g2]; rfl⟩
  · exact h

theorem hits_frame_ship_results (st : exporter_state) :
    hits_frame st (ship_results st) := by
  obtain ⟨⟨ships, h1⟩, h2, _⟩ := ship_results_frame st
  exact ⟨congrArg (fun s => s.hits) h2, by rw [h1, lookups_of_ships]⟩

theorem hits_frame_request_more_hits (st : exporter_state) :
    hits_frame st (request_more_hits st) := by
  unfold request_more_hits
  split_ifs <;> exact ⟨rfl, rfl⟩

theorem hits_frame_shutdown (st : exporter_state) : hits_frame st (shutdown st) := by
  unfold shutdown
  split_ifs <;> exact ⟨rfl, rfl⟩

theorem hits_frame_check_candidates (P : primitives) (st : exporter_state) (c : Nat)
    (slice : table_slice) : hits_frame st (check_candidates P st c slice) := by
  unfold check_candidates
  simp only
  split_ifs
  · exact ⟨rfl, rfl⟩
  · exact hits_frame_ship_results _

theorem hits_frame_handle_batch (P : primitives) (st : exporter_state)
    (slice : table_slice) : hits_frame st (handle_batch P st slice) := by
  unfold handle_batch
  split_ifs
  · exact hits_frame_refl st _
  · split
    · exact hits_frame_check_candidates P st _ slice
    · split
      · exact hits_frame_and_then st _ _ (hits_frame_ship_results st) hits_frame_shutdown
      · exact hits_frame_check_candidates P _ _ slice

theorem hits_frame_on_extract (st : exporter_state) (n : Nat) :
    hits_frame st (on_extract st n) := by
  unfold on_extract
  split_ifs
  · exact hits_frame_refl st _
  · exact hits_frame_refl st _
  · exact hits_frame_and_then _ _ _ (hits_frame_ship_results _)
      hits_frame_request_more_hits
  · exact hits_frame_refl st _

theorem hits_frame_on_extract_all (st : exporter_state) :
    hits_frame st (on_extract_all st) := by
  unfold on_extract_all
  split_ifs
  · exact hits_frame_refl st _
  · exact hits_frame_and_then _ _ _ (hits_frame_ship_results _)
      hits_frame_request_more_hits

theorem hits_frame_on_done (st : exporter_state) : hits_frame st (on_done st) := by
  unfold on_done
  simp only
  split_ifs <;> first
    | exact hits_frame_refl st _
    | exact hits_frame_request_more_hits _
    | exact hits_frame_and_then st _ _ ⟨rfl, rfl⟩ hits_frame_shutdown
    | exact ⟨rfl, rfl⟩

theorem hits_frame_on_archive_done (st : exporter_state) (sender : Nat) :
    hits_frame st (on_archive_done st sender) := by
  unfold on_archive_done
  simp only
  split_ifs <;> exact ⟨rfl, rfl⟩

theorem hits_frame_on_run_reply (st : exporter_state) (l p s : Nat) :
    hits_frame st (on_run_reply st l p s) := by
  unfold on_run_reply
  simp only
  split_ifs
  · exact ⟨rfl, rfl⟩
  · exact hits_frame_shutdown _

/-- Every handler but the hit-set handler leaves the accumulator alone and forwards
nothing to the Archive. -/
theorem hits_frame_exporter (P : primitives) (st : exporter_state) (e : event)
    (he : ∀ hs, e ≠ .hits hs) : hits_frame st (exporter P st e) := by
  cases e with
  | hits hs => exact absurd rfl (he hs)
  | extract_all => exact hits_frame_on_extract_all st
  | extract n => exact hits_frame_on_extract st n
  | stream slice => exact hits_frame_handle_batch P st slice
  | slice slice => exact hits_frame_handle_batch P st slice
  | archive_done sender err => exact hits_frame_on_archive_done st sender
  | done => exact hits_frame_on_done st
  | run_reply l p s => exact hits_frame_on_run_reply st l p s
  | run =>
    simp only [exporter]
    split_ifs <;> exact ⟨rfl, rfl⟩
  | archive a =>
    simp only [exporter]
    split_ifs <;> exact ⟨rfl, rfl⟩
  | index a =>
    simp only [exporter]
    split_ifs <;> exact ⟨rfl, rfl⟩
  | _ => exact ⟨rfl, rfl⟩

theorem union_all_append (a : List ids) (h : ids) :
    union_all (a ++ [h]) = union_all a ∪ h := by
  induction a with
  | nil => simp [union_all]
  | cons x rest ih => simp [union_all, ih, Finset.union_assoc]

theorem rank_sum_append (a : List ids) (h : ids) :
    rank_sum (a ++ [h]) = rank_sum a + rank h := by
  induction a with
  | nil => simp [rank_sum]
  | cons x rest ih => simp [rank_sum, ih]; omega

theorem subset_union_all (a : List ids) (x : ids) (hx : x ∈ a) : x ⊆ union_all a := by
  induction a with
  | nil => simp at hx
  | cons y rest ih =>
    simp only [List.mem_cons] at hx
    rcases hx with rfl | hx
    · exact Finset.subset_union_left
    · exact (ih hx).trans Finset.subset_union_right

theorem on_hits_accumulates (st : exporter_state) (hs : ids) :
    ((on_hits st hs).st.hits = st.hits ∧ lookups_of (on_hits st hs).out = []) ∨
    (rank (st.hits ∩ hs) = 0 ∧ (on_hits st hs).st.hits = st.hits ∪ hs ∧
      lookups_of (on_hits st hs).out = [hs]) := by
  unfold on_hits
  simp only
  split_ifs with h1 h2 h3 h4 h5
  all_goals first
    | (left; exact ⟨rfl, by simp [lookups_of]⟩)
    | (right; exact ⟨by simpa using h4, rfl, by simp [lookups_of, lookups_of_append]⟩)

theorem accepted_hits_invariant (P : primitives) (w0 w : world)
    (h : reachable P any_environment w0 w)
    (h0 : w0.exporter.hits = union_all (lookups_of w0.sent) ∧
          (lookups_of w0.sent).Pairwise (fun a b => rank (a ∩ b) = 0) ∧
          rank w0.exporter.hits = rank_sum (lookups_of w0.sent)) :
    w.exporter.hits = union_all (lookups_of w.sent) ∧
    (lookups_of w.sent).Pairwise (fun a b => rank (a ∩ b) = 0) ∧
    rank w.exporter.hits = rank_sum (lookups_of w.sent) := by
  induction h with
  | start => exact h0
  | @step w e _ _ _ ih =>
    obtain ⟨ih1, ih2, ih3⟩ := ih
    show (exporter P w.exporter e).st.hits
          = union_all (lookups_of (w.sent ++ (exporter P w.exporter e).out)) ∧
        (lookups_of (w.sent ++ (exporter P w.exporter e).out)).Pairwise
          (fun a b => rank (a ∩ b) = 0) ∧
        rank (exporter P w.exporter e).st.hits
          = rank_sum (lookups_of (w.sent ++ (exporter P w.exporter e).out))
    rw [lookups_of_append]
    have hkeep : ∀ r : outcome, r.st.hits = w.exporter.hits → lookups_of r.out = [] →
        r.st.hits = union_all (lookups_of w.sent ++ lookups_of r.out) ∧
        (lookups_of w.sent ++ lookups_of r.out).Pairwise (fun a b => rank (a ∩ b) = 0) ∧
        rank r.st.hits = rank_sum (lookups_of w.sent ++ lookups_of r.out) := by
      intro r hr1 hr2
      rw [hr1, hr2, List.append_nil]
      exact ⟨ih1, ih2, ih3⟩
    by_cases hx : ∃ hs, e = .hits hs
    · obtain ⟨hs, rfl⟩ := hx
      rcases on_hits_accumulates w.exporter hs with ⟨g1, g2⟩ | ⟨g0, g1, g2⟩
      · exact hkeep _ g1 g2
      · have hdisj : Disjoint w.exporter.hits hs := by
          rw [Finset.disjoint_iff_inter_eq_empty]
          exact Finset.card_eq_zero.mp g0
        simp only [exporter]
        rw [g1, g2, union_all_append, rank_sum_append, ← ih1]
        refine ⟨rfl, ?_, ?_⟩
        · rw [List.pairwise_append]
          refine ⟨ih2, List.pairwise_singleton _ _, ?_⟩
          intro a ha b hb
          simp only [List.mem_singleton] at hb
          subst hb
          have hsub : a ⊆ w.exporter.hits := by
            rw [ih1]; exact subset_union_all _ a ha
          have : a ∩ b ⊆ w.exporter.hits ∩ b := Finset.inter_subset_inter_right hsub
          have hz : w.exporter.hits ∩ b = ∅ := Finset.card_eq_zero.mp g0
          rw [hz, Finset.subset_empty] at this
          simp [rank, this]
        · simp only [rank] at ih3 ⊢
          rw [Finset.card_union_of_disjoint hdisj, ih3]
    · obtain ⟨g1, g2⟩ := hits_frame_exporter P w.exporter e
        (by intro hs he; exact hx ⟨hs, he⟩)
      exact hkeep _ g1 g2

/-- C22: in every state reachable from the initial state, whatever messages arrive
(each accepted non-empty hit-set has passed the overlap check of the handler), the
hit-sets accepted and forwarded so far are pairwise disjoint (every pair has an
intersection of rank 0), the accumulator is their union, and its rank is the sum of
their ranks. -/
theorem accepted_hits_disjoint (P : primitives) (options : query_options) (expr : Nat)
    (w : world) (h : reachable P any_environment (world.start options expr) w) :
    (lookups_of w.sent).Pairwise (fun a b => rank (a ∩ b) = 0) ∧
    w.exporter.hits = union_all (lookups_of w.sent) ∧
    rank w.exporter.hits = rank_sum (lookups_of w.sent) := by
  obtain ⟨h1, h2, h3⟩ := accepted_hits_invariant P _ w h
    ⟨rfl, List.Pairwise.nil, rfl⟩
  exact ⟨h2, h1, h3⟩

/-- Witness for C22: two disjoint hit-sets have been accepted. -/
theorem accepted_hits_disjoint_witness :
    reachable match_all any_environment (world.start historical_query 0)
      ((world.start historical_query 0).after match_all two_hits_trace) ∧
    lookups_of ((world.start historical_query 0).after match_all two_hits_trace).sent
      = [{100, 101}, {200}] ∧
    rank ((world.start historical_query 0).after match_all two_hits_trace).exporter.hits
      = 3 ∧
    ((lookups_of
        ((world.start historical_query 0).after match_all two_hits_trace).sent).Pairwise
        (fun a b => rank (a ∩ b) = 0) ∧
      ((world.start historical_query 0).after match_all two_hits_trace).exporter.hits
        = union_all (lookups_of
            ((world.start historical_query 0).after match_all two_hits_trace).sent) ∧
      rank ((world.start historical_query 0).after match_all two_hits_trace).exporter.hits
        = rank_sum (lookups_of
            ((world.start historical_query 0).after match_all two_hits_trace).sent)) :=
  ⟨reachable_after _ _ _ _ _ reachable.start (by decide!), by decide!, by decide!,
   accepted_hits_disjoint match_all historical_query 0 _
     (reachable_after _ _ _ _ _ reachable.start (by decide!))⟩

/-! ## Compilation failure -/

theorem handle_batch_compile_failure (P : primitives) (st : exporter_state)
    (slice : table_slice) (err : Nat) (henc : slice.encoding ≠ .none)
    (hnew : st.checkers.lookup slice.layout = none)
    (hfail : P.tailor st.expr slice.layout = .error err) :
    handle_batch P st slice = (ship_results st).and_then shutdown := by
  simp [handle_batch, henc, hnew, hfail]

theorem shipped_slices_shutdown (st : exporter_state) :
    shipped_slices (shutdown st).out = [] := by
  unfold shutdown
  split_ifs <;> rfl

/-- C23, as the code has it: when compilation fails for a batch whose schema has no
cached checker, in a state whose `cached` agrees with the buffer, the handler returns
having run `ship_results`: the first `min(requested, cached)` buffered rows are sent
to the sink in FIFO order, the other rows stay buffered in order and `cached` counts
them; when `cached <= requested` every buffered row is sent and `cached` ends at 0. -/
theorem compile_failure_ships_demand (P : primitives) (st : exporter_state)
    (slice : table_slice) (err : Nat) (henc : slice.encoding ≠ .none)
    (hnew : st.checkers.lookup slice.layout = none)
    (hfail : P.tailor st.expr slice.layout = .error err)
    (hinv : st.query.cached = total_rows st.results) :
    (handle_batch P st slice).disp = .returned ∧
    all_rows (shipped_slices (handle_batch P st slice).out)
      = (all_rows st.results).take (min st.query.requested st.query.cached) ∧
    all_rows (handle_batch P st slice).st.results
      = (all_rows st.results).drop (min st.query.requested st.query.cached) ∧
    (handle_batch P st slice).st.query.cached
      = st.query.cached - min st.query.requested st.query.cached ∧
    (st.query.cached ≤ st.query.requested →
      all_rows (shipped_slices (handle_batch P st slice).out) = all_rows st.results ∧
      all_rows (handle_batch P st slice).st.results = [] ∧
      (handle_batch P st slice).st.query.cached = 0) := by
  rw [handle_batch_compile_failure P st slice err henc hnew hfail]
  obtain ⟨ships, rest, heq, h1, h2, _⟩ :=
    ship_loop_spec (st.results.length + 1) st (Nat.lt_succ_self _) hinv
  have heq2 : ship_results st = _ := heq
  have hshut : ∀ s : exporter_state, (shutdown s).st = s ∧ (shutdown s).disp = .returned := by
    intro s
    unfold shutdown
    split_ifs <;> exact ⟨rfl, rfl⟩
  have hlen : (all_rows st.results).length = st.query.cached := by
    rw [← total_rows_eq_length, hinv]
  rw [heq2]
  simp only [outcome.and_then, shipped_slices_append, shipped_slices_map_ship,
    shipped_slices_shutdown, List.append_nil, (hshut _).1, (hshut _).2]
  refine ⟨trivial, h1, h2, rfl, fun hle => ?_⟩
  have hk : min st.query.requested st.query.cached = st.query.cached := by omega
  rw [h1, h2, hk]
  refine ⟨?_, ?_, ?_⟩
  · rw [List.take_of_length_le (by omega)]
  · rw [List.drop_of_length_le (by omega)]
  · simp [query_status.ship]

/-- Witness for C23: four rows requested, five buffered, compilation fails. -/
theorem compile_failure_ships_demand_witness :
    ten_rows.encoding ≠ .none ∧
    two_batches.checkers.lookup ten_rows.layout = none ∧
    match_fail.tailor two_batches.expr ten_rows.layout = .error 7 ∧
    two_batches.query.cached = total_rows two_batches.results ∧
    all_rows (handle_batch match_fail two_batches ten_rows).st.results = [14] ∧
    all_rows (shipped_slices (handle_batch match_fail two_batches ten_rows).out)
      = (all_rows two_batches.results).take
          (min two_batches.query.requested two_batches.query.cached) :=
  ⟨by decide, by decide, rfl, by decide, by decide,
   (compile_failure_ships_demand match_fail two_batches ten_rows 7 (by decide)
      (by decide) rfl (by decide)).2.1⟩

/-- C23, as stated, fails: ten rows are buffered and none is requested when compilation
fails; the handler ships nothing and the ten rows stay in the buffer. -/
theorem compile_failure_keeps_buffer :
    ten_cached.checkers.lookup ten_rows.layout = none ∧
    match_fail.tailor ten_cached.expr ten_rows.layout = .error 7 ∧
    ten_cached.query.cached = total_rows ten_cached.results ∧
    (handle_batch match_fail ten_cached ten_rows).st.results = [ten_rows] ∧
    (handle_batch match_fail ten_cached ten_rows).st.query.cached = 10 ∧
    shipped_slices (handle_batch match_fail ten_cached ten_rows).out = [] :=
  ⟨by decide, rfl, by decide, by decide, by decide, by decide⟩

/-- C24: compilation fails with error 7 and the handler calls `shutdown(self)`, the
overload without an error: for a historical query the exit message carries the normal
reason, not the error; for a query with the continuous option no exit message is sent
at all. -/
theorem compile_failure_drops_error :
    match_fail.tailor ten_cached.expr ten_rows.layout = .error 7 ∧
    (handle_batch match_fail ten_cached ten_rows).out = [.exit_self .normal] ∧
    match_fail.tailor ten_cached_unified.expr ten_rows.layout = .error 7 ∧
    (handle_batch match_fail ten_cached_unified ten_rows).out = [] ∧
    (exporter match_fail ten_cached (.run_error 7)).out = [.exit_self (.error 7)] :=
  ⟨rfl, by decide, rfl, by decide, by decide⟩

/-! ## The reply to `run` -/

/-- C25, as the code has it: when the Index answers `run` with zero partitions the
handler stores the lookup handle, changes nothing else (`expected` keeps its value)
and ships nothing; it sends the normal exit when the query has no continuous option
and no exit when it has one.  When the round-trip fails with error `e` it sends the
exit with exactly `e`.  When `partitions > 0` it stores `expected = partitions` and
the `scheduled` of the reply and sends nothing. -/
theorem run_reply_cases (P : primitives) (st : exporter_state)
    (lookup partitions scheduled e : Nat) :
    (on_run_reply st lookup 0 scheduled).st = { st with id := lookup } ∧
    (on_run_reply st lookup 0 scheduled).disp = .returned ∧
    (has_continuous_option st.options = false →
      (on_run_reply st lookup 0 scheduled).out = [.exit_self .normal]) ∧
    (has_continuous_option st.options = true →
      (on_run_reply st lookup 0 scheduled).out = []) ∧
    exporter P st (.run_error e) = ⟨st, [.exit_self (.error e)], .returned⟩ ∧
    (0 < partitions →
      on_run_reply st lookup partitions scheduled =
        ⟨{ st with id := lookup,
                   query := { st.query with expected := partitions,
                                            scheduled := scheduled } },
         [], .returned⟩) := by
  refine ⟨?_, ?_, ?_, ?_, rfl, ?_⟩
  · simp only [on_run_reply, Nat.lt_irrefl, if_false, shutdown]
    split_ifs <;> rfl
  · simp only [on_run_reply, Nat.lt_irrefl, if_false, shutdown]
    split_ifs <;> rfl
  · intro hc
    simp [on_run_reply, shutdown, hc]
  · intro hc
    simp [on_run_reply, shutdown, hc]
  · intro hp
    simp [on_run_reply, hp]

/-- Witness for C25: a historical query, zero partitions, then four partitions. -/
theorem run_reply_cases_witness :
    has_continuous_option (initial_state historical_query 0).options = false ∧
    (on_run_reply (initial_state historical_query 0) 42 0 0).out = [.exit_self .normal] ∧
    (on_run_reply (initial_state historical_query 0) 42 4 2).st.query
      = { expected := 4, scheduled := 2 } :=
  ⟨rfl,
   (run_reply_cases match_all (initial_state historical_query 0) 42 4 0 7).2.2.1 rfl,
   by decide⟩

/-- C25, as stated, fails: a query with the historical and the continuous option whose
Index reply reports zero partitions sends no exit message. -/
theorem zero_partitions_unified_stays_alive :
    has_historical_option (initial_state unified_query 0).options = true ∧
    (on_run_reply (initial_state unified_query 0) 42 0 0).out = [] ∧
    (on_run_reply (initial_state unified_query 0) 42 0 0).disp = .returned :=
  ⟨rfl, by decide, by decide⟩

/-! ## Termination and statistics -/

/-- C26, as the code has it: the exit handler returns having sent, for a reason other
than kill, the messages of `report_statistics`, then the zero-partition request to
the Index at high priority, then it quits with the reason of the exit message; for
the reason kill it sends no statistics and still the zero-partition request.  The
down handler quits without a zero-partition request, and sends the messages of
`report_statistics` only for a query with the continuous option when the lost
collaborator is the Archive or the Index. -/
theorem exit_reports_then_stops (st : exporter_state) (msg : exit_msg)
    (lost : down_msg) :
    (msg.reason ≠ .kill →
      (on_exit st msg).out
        = report_statistics st ++ [.index_stop st.id, .quit msg.reason]) ∧
    (msg.reason = .kill → (on_exit st msg).out = [.index_stop st.id, .quit .kill]) ∧
    (on_exit st msg).st = st ∧
    (∀ id, effect.index_stop id ∉ report_statistics st) ∧
    (∀ id, effect.index_stop id ∉ (on_down st lost).out) ∧
    (on_down st lost).out.getLast? = some (.quit lost.reason) ∧
    (¬ (has_continuous_option st.options = true
          ∧ (some lost.source = st.archive ∨ some lost.source = st.index)) →
      (on_down st lost).out = [.quit lost.reason]) ∧
    ((has_continuous_option st.options = true
          ∧ (some lost.source = st.archive ∨ some lost.source = st.index)) →
      (on_down st lost).out = report_statistics st ++ [.quit lost.reason]) := by
  have hrep : ∀ id, effect.index_stop id ∉ report_statistics st := by
    intro id
    unfold report_statistics
    split_ifs <;> simp
  refine ⟨fun h => by simp [on_exit, h], fun h => by simp [on_exit, h], rfl, hrep,
    ?_, ?_, fun h => by simp [on_down, h], fun h => by simp [on_down, h]⟩
  · intro id
    unfold on_down
    split_ifs
    · simp only [List.mem_append, List.mem_singleton, reduceCtorEq, or_false]
      exact hrep id
    · simp
  · unfold on_down
    simp

/-- Witness for C26: an exit with the normal reason, as sent by finish detection. -/
theorem exit_reports_then_stops_witness :
    (⟨0, .normal⟩ : exit_msg).reason ≠ .kill ∧
    (on_exit watched ⟨0, .normal⟩).out
      = [.statistics watched.query, .report 0 10 1 0, .index_stop 42, .quit .normal] ∧
    (on_exit watched ⟨0, .normal⟩).out
      = report_statistics watched ++ [.index_stop watched.id, .quit .normal] :=
  ⟨by decide, by decide,
   (exit_reports_then_stops watched ⟨0, .normal⟩ ⟨3, .normal⟩).1 (by decide)⟩

/-- C26, as stated, fails: the Sink of a historical query with accountant and statistics
subscriber registered disconnects; the down handler sends no statistics and no
zero-partition request, it only quits. -/
theorem sink_down_quits_silently :
    watched.sink = some 3 ∧ watched.accountant.isSome = true ∧
    watched.statistics_subscriber.isSome = true ∧
    (on_down watched ⟨3, .error 1⟩).out = [.quit (.error 1)] :=
  ⟨rfl, rfl, rfl, by decide⟩

/-- C30: a run after which one ten-row batch is buffered and nothing is shipped
(`shipped + cached = 10`); `report_statistics` reports `exporter.results = 1`, the
rows shipped plus the number of buffered batches. -/
theorem results_counts_batches :
    reachable match_all protocol (world.start unified_query 0)
      ((world.start unified_query 0).after match_all buffered_trace) ∧
    ((world.start unified_query 0).after match_all buffered_trace).exporter.query.shipped
      + ((world.start unified_query 0).after match_all buffered_trace).exporter.query.cached
      = 10 ∧
    report_statistics ((world.start unified_query 0).after match_all buffered_trace).exporter
      = [.report 0 10 1 0] :=
  ⟨reachable_after _ _ _ _ _ reachable.start (by decide!), by decide!, by decide!⟩

/-! ## Termination of the shipping loop -/

/-- C28: in a state whose `cached` equals the rows in the Result Buffer the loop of
`ship_results` ends by itself with none of its assertions failing, and on exit
`requested == 0` or `cached == 0`.  The assertions hold for the reasons the code
gives: with `requested > 0` and `cached > 0` the buffer is not empty, the first part
of a head split at `requested` has exactly `requested` rows, and the rows shipped in
total are at most `cached` and at most `requested`. -/
theorem ship_results_terminates (st : exporter_state)
    (hinv : st.query.cached = total_rows st.results) :
    (ship_results st).disp = .returned ∧
    ((ship_results st).st.query.requested = 0 ∨ (ship_results st).st.query.cached = 0) ∧
    (0 < st.query.requested ∧ 0 < st.query.cached → st.results ≠ []) ∧
    (∀ head rest, st.results = head :: rest → st.query.requested < head.rows →
      (split head st.query.requested).1.rows = st.query.requested ∧
      (split head st.query.requested).1.encoding ≠ .none ∧
      (split head st.query.requested).2.encoding ≠ .none ∧
      (split head st.query.requested).1.rows ≤ st.query.cached) ∧
    (∀ head rest, st.results = head :: rest → head.rows ≤ st.query.cached) ∧
    shipped_rows (ship_results st).out ≤ st.query.cached ∧
    shipped_rows (ship_results st).out ≤ st.query.requested ∧
    (ship_results st).st.query.cached = total_rows (ship_results st).st.results := by
  obtain ⟨ships, rest, heq, h1, h2, _⟩ :=
    ship_loop_spec (st.results.length + 1) st (Nat.lt_succ_self _) hinv
  have heq2 : ship_results st = _ := heq
  have hlen : (all_rows st.results).length = st.query.cached := by
    rw [← total_rows_eq_length, hinv]
  have hrows : shipped_rows (ship_results st).out
      = min st.query.requested st.query.cached := by
    rw [heq2]
    simp only [shipped_rows, shipped_slices_map_ship]
    rw [total_rows_eq_length, h1, List.length_take, hlen]
    omega
  refine ⟨by rw [heq2], ?_, ?_, ?_, ?_, by omega, by omega, ?_⟩
  · rw [heq2]
    simp only [query_status.ship]
    omega
  · rintro ⟨_, hc⟩ hnil
    rw [hnil] at hinv
    simp only [total_rows] at hinv
    omega
  · intro head rest hres hlt
    have henc := split_encoding_of_rows head st.query.requested (by omega)
    have hr : (split head st.query.requested).1.rows = st.query.requested := by
      simp only [table_slice.rows, split_fst_data, List.length_take]
      simp only [table_slice.rows] at hlt
      omega
    refine ⟨hr, henc.1, henc.2, ?_⟩
    rw [hr, hinv, hres]
    simp only [total_rows]
    omega
  · intro head rest hres
    rw [hinv, hres]
    simp only [total_rows]
    omega
  · rw [heq2]
    simp only [query_status.ship]
    rw [total_rows_eq_length, h2, List.length_drop, hlen]

/-- Witness for C28: four rows requested from batches of three and two rows. -/
theorem ship_results_terminates_witness :
    two_batches.query.cached = total_rows two_batches.results ∧
    (ship_results two_batches).st.query.requested = 0 ∧
    (ship_results two_batches).disp = .returned :=
  ⟨by decide, by decide, (ship_results_terminates two_batches (by decide)).1⟩

/-! ## Rows shipped, buffered and examined -/

theorem ship_loop_cached (fuel : Nat) : ∀ st : exporter_state,
    (ship_loop fuel st).st.query.cached + shipped_rows (ship_loop fuel st).out
      = st.query.cached := by
  induction fuel with
  | zero =>
    intro st
    unfold ship_loop
    split_ifs <;> simp [shipped_rows, shipped_slices, total_rows]
  | succ fuel ih =>
    intro st
    by_cases hg : 0 < st.query.requested ∧ 0 < st.query.cached
    · cases hf : fetch_next st with
      | error site =>
        rw [ship_loop_fetch_error fuel st site hg hf]
        simp [shipped_rows, shipped_slices, total_rows]
      | ok p =>
        obtain ⟨slice, st1⟩ := p
        obtain ⟨_, hq⟩ := fetch_next_ok st st1 slice hf
        have hq1 : st1.query.cached = st.query.cached := by rw [hq]
        by_cases hc : slice.rows ≤ st1.query.cached
        · rw [ship_loop_iter fuel st st1 slice hg hf hc]
          generalize hst2 : ({ st1 with query := { st1.query with
                          cached := st1.query.cached - slice.rows,
                          requested := st1.query.requested - slice.rows,
                          shipped := st1.query.shipped + slice.rows } } : exporter_state)
            = st2
          have hc2 : st2.query.cached = st1.query.cached - slice.rows := by
            rw [← hst2]
          have h1 := ih st2
          simp only [shipped_rows, shipped_slices, total_rows] at h1 ⊢
          omega
        · rw [ship_loop_rows_error fuel st st1 slice hg hf hc]
          simp [shipped_rows, shipped_slices, total_rows, hq1]
    · rw [ship_loop_exit _ _ hg]
      simp [shipped_rows, shipped_slices, total_rows]

theorem ledger_step_refl (st : exporter_state) (out : List effect) (d : disposition) :
    ledger_step st ⟨st, out, d⟩ :=
  ⟨Nat.le_refl _, Nat.le_refl _, Nat.le_refl _⟩

theorem ledger_step_and_then (st : exporter_state) (r : outcome)
    (f : exporter_state → outcome) (h : ledger_step st r)
    (hf : ∀ s, ledger_step s (f s)) : ledger_step st (r.and_then f) := by
  unfold outcome.and_then
  split
  · obtain ⟨h1, h2, h3⟩ := h
    obtain ⟨g1, g2, g3⟩ := hf r.st
    exact ⟨by simp only; omega, by simp only; omega, by simp only; omega⟩
  · exact h

theorem ledger_step_ship_results (st : exporter_state) :
    ledger_step st (ship_results st) := by
  have h1 := ship_results_processed st
  have h2 := (ship_results_demand st).2
  have h3 : (ship_results st).st.query.cached + shipped_rows (ship_results st).out
      = st.query.cached := ship_loop_cached _ st
  exact ⟨by omega, by omega, by omega⟩

theorem ledger_step_request_more_hits (st : exporter_state) :
    ledger_step st (request_more_hits st) := by
  unfold request_more_hits
  split_ifs <;> exact ⟨Nat.le_refl _, Nat.le_refl _, Nat.le_refl _⟩

theorem ledger_step_shutdown (st : exporter_state) : ledger_step st (shutdown st) := by
  unfold shutdown
  split_ifs <;> exact ledger_step_refl st _ _

theorem ledger_step_check_candidates (P : primitives) (hP : rows_bounded P)
    (st : exporter_state) (c : Nat) (slice : table_slice) :
    ledger_step st (check_candidates P st c slice) := by
  unfold check_candidates
  simp only
  split_ifs
  · exact ⟨by simp only; omega, by simp only; omega, by simp only; omega⟩
  · obtain ⟨g1, g2, g3⟩ := ledger_step_ship_results
      { st with
        results := select st.results slice (P.evaluate c slice),
        query := { st.query with
          processed := st.query.processed + slice.rows,
          cached := st.query.cached + rank (P.evaluate c slice) } }
    have hb := hP c slice
    simp only at g1 g2 g3
    exact ⟨by omega, by omega, by omega⟩

theorem ledger_step_handle_batch (P : primitives) (hP : rows_bounded P)
    (st : exporter_state) (slice : table_slice) :
    ledger_step st (handle_batch P st slice) := by
  unfold handle_batch
  split_ifs
  · exact ledger_step_refl st _ _
  · split
    · exact ledger_step_check_candidates P hP st _ slice
    · split
      · exact ledger_step_and_then st _ _ (ledger_step_ship_results st)
          ledger_step_shutdown
      · exact ledger_step_check_candidates P hP
          { st with checkers := (slice.layout, _) :: st.checkers } _ slice

theorem ledger_step_on_extract (st : exporter_state) (n : Nat) :
    ledger_step st (on_extract st n) := by
  unfold on_extract
  split_ifs
  · exact ledger_step_refl st _ _
  · exact ledger_step_refl st _ _
  · exact ledger_step_and_then st _ _
      (ledger_step_ship_results { st with query := { st.query with
        requested := (st.query.requested + min (max_events - n) n) % 2 ^ 64 } })
      ledger_step_request_more_hits
  · exact ledger_step_refl st _ _

theorem ledger_step_on_extract_all (st : exporter_state) :
    ledger_step st (on_extract_all st) := by
  unfold on_extract_all
  split_ifs
  · exact ledger_step_refl st _ _
  · exact ledger_step_and_then st _ _
      (ledger_step_ship_results { st with query := { st.query with
        requested := max_events } })
      ledger_step_request_more_hits

theorem ledger_step_on_done (st : exporter_state) : ledger_step st (on_done st) := by
  unfold on_done
  simp only
  split_ifs <;> first
    | exact ledger_step_refl st _ _
    | exact ledger_step_request_more_hits
        { st with query := { st.query with
          received := st.query.received + st.query.scheduled } }
    | exact ledger_step_and_then st _ _ ⟨Nat.le_refl _, Nat.le_refl _, Nat.le_refl _⟩
        ledger_step_shutdown
    | exact ⟨Nat.le_refl _, Nat.le_refl _, Nat.le_refl _⟩

theorem ledger_step_on_hits (st : exporter_state) (hs : ids) :
    ledger_step st (on_hits st hs) := by
  unfold on_hits
  simp only
  split_ifs <;> exact ⟨Nat.le_refl _, Nat.le_refl _, Nat.le_refl _⟩

theorem ledger_step_on_archive_done (st : exporter_state) (sender : Nat) :
    ledger_step st (on_archive_done st sender) := by
  unfold on_archive_done
  simp only
  split_ifs <;> exact ⟨Nat.le_refl _, Nat.le_refl _, Nat.le_refl _⟩

theorem ledger_step_on_run_reply (st : exporter_state) (l p s : Nat) :
    ledger_step st (on_run_reply st l p s) := by
  unfold on_run_reply
  simp only
  split_ifs
  · exact ⟨Nat.le_refl _, Nat.le_refl _, Nat.le_refl _⟩
  · exact ledger_step_shutdown { st with id := l }

/-- Every handler keeps the row bookkeeping, given that selections lie within their
batch. -/
theorem ledger_step_exporter (P : primitives) (hP : rows_bounded P)
    (st : exporter_state) (e : event) : ledger_step st (exporter P st e) := by
  cases e with
  | extract_all => exact ledger_step_on_extract_all st
  | extract n => exact ledger_step_on_extract st n
  | stream slice => exact ledger_step_handle_batch P hP st slice
  | slice slice => exact ledger_step_handle_batch P hP st slice
  | archive_done sender err => exact ledger_step_on_archive_done st sender
  | hits hs => exact ledger_step_on_hits st hs
  | done => exact ledger_step_on_done st
  | run_reply l p s => exact ledger_step_on_run_reply st l p s
  | run =>
    simp only [exporter]
    split_ifs <;> exact ⟨Nat.le_refl _, Nat.le_refl _, Nat.le_refl _⟩
  | _ => exact ⟨Nat.le_refl _, Nat.le_refl _, Nat.le_refl _⟩

theorem match_all_rows_bounded : rows_bounded match_all := by
  intro c slice
  simp [match_all, rank, Nat.card_Ico]

/-- C29: given that `evaluate` returns selections with `rank(selection) <= rows(batch)`,
every state reachable from the initial state has `shipped + cached <= processed`, and
no handler, run in such a state on any message, lowers `shipped` or `processed`. -/
theorem shipped_cached_le_processed (P : primitives) (hP : rows_bounded P)
    (options : query_options) (expr : Nat) (w : world)
    (h : reachable P any_environment (world.start options expr) w) :
    w.exporter.query.shipped + w.exporter.query.cached ≤ w.exporter.query.processed ∧
    (∀ e, w.exporter.query.shipped ≤ (w.step P e).exporter.query.shipped ∧
          w.exporter.query.processed ≤ (w.step P e).exporter.query.processed) := by
  constructor
  · induction h with
    | start => exact Nat.le_refl 0
    | @step w e _ _ _ ih =>
      obtain ⟨_, _, g3⟩ := ledger_step_exporter P hP w.exporter e
      show (exporter P w.exporter e).st.query.shipped
          + (exporter P w.exporter e).st.query.cached
          ≤ (exporter P w.exporter e).st.query.processed
      omega
  · intro e
    obtain ⟨g1, g2, _⟩ := ledger_step_exporter P hP w.exporter e
    exact ⟨g2, g1⟩

/-- Witness for C29: a ten-row batch arrives and `extract(5)` ships five rows. -/
theorem shipped_cached_le_processed_witness :
    rows_bounded match_all ∧
    reachable match_all any_environment (world.start historical_query 0)
      ((world.start historical_query 0).after match_all demand_trace) ∧
    ((world.start historical_query 0).after match_all demand_trace).exporter.query
      = { processed := 10, shipped := 5, cached := 5 } ∧
    ((world.start historical_query 0).after match_all demand_trace).exporter.query.shipped
      + ((world.start historical_query 0).after match_all demand_trace).exporter.query.cached
      ≤ ((world.start historical_query 0).after match_all demand_trace).exporter.query.processed :=
  ⟨match_all_rows_bounded,
   reachable_after _ _ _ _ _ reachable.start (by decide!), by decide!,
   (shipped_cached_le_processed match_all match_all_rows_bounded historical_query 0 _
     (reachable_after _ _ _ _ _ reachable.start (by decide!))).1⟩

/-! ## The Checker Cache -/

theorem cache_keep_refl (st : exporter_state) (out : List effect) (d : disposition) :
    cache_keep st ⟨st, out, d⟩ := ⟨rfl, rfl⟩

theorem cache_keep_and_then (st : exporter_state) (r : outcome)
    (f : exporter_state → outcome) (h : cache_keep st r)
    (hf : ∀ s, cache_keep s (f s)) : cache_keep st (r.and_then f) := by
  unfold outcome.and_then
  split
  · obtain ⟨h1, h2⟩ := h
    obtain ⟨g1, g2⟩ := hf r.st
    exact ⟨g1.trans h1, g2.trans h2⟩
  · exact h

theorem cache_keep_ship_results (st : exporter_state) :
    cache_keep st (ship_results st) :=
  ⟨congrArg (fun s => s.expr) (ship_results_frame st).2.1,
   congrArg (fun s => s.checkers) (ship_results_frame st).2.1⟩

theorem cache_keep_request_more_hits (st : exporter_state) :
    cache_keep st (request_more_hits st) := by
  unfold request_more_hits
  split_ifs <;> exact ⟨rfl, rfl⟩

theorem cache_keep_shutdown (st : exporter_state) : cache_keep st (shutdown st) := by
  unfold shutdown
  split_ifs <;> exact ⟨rfl, rfl⟩

theorem cache_keep_check_candidates (P : primitives) (st : exporter_state) (c : Nat)
    (slice : table_slice) : cache_keep st (check_candidates P st c slice) := by
  unfold check_candidates
  simp only
  split_ifs
  · exact ⟨rfl, rfl⟩
  · exact cache_keep_ship_results _

theorem cache_keep_on_extract (st : exporter_state) (n : Nat) :
    cache_keep st (on_extract st n) := by
  unfold on_extract
  split_ifs
  · exact ⟨rfl, rfl⟩
  · exact ⟨rfl, rfl⟩
  · exact cache_keep_and_then st _ _
      (cache_keep_ship_results { st with query := { st.query with
        requested := (st.query.requested + min (max_events - n) n) % 2 ^ 64 } })
      cache_keep_request_more_hits
  · exact ⟨rfl, rfl⟩

theorem cache_keep_on_extract_all (st : exporter_state) :
    cache_keep st (on_extract_all st) := by
  unfold on_extract_all
  split_ifs
  · exact ⟨rfl, rfl⟩
  · exact cache_keep_and_then st _ _
      (cache_keep_ship_results { st with query := { st.query with
        requested := max_events } })
      cache_keep_request_more_hits

theorem cache_keep_on_done (st : exporter_state) : cache_keep st (on_done st) := by
  unfold on_done
  simp only
  split_ifs <;> first
    | exact ⟨rfl, rfl⟩
    | exact cache_keep_request_more_hits
        { st with query := { st.query with
          received := st.query.received + st.query.scheduled } }
    | exact cache_keep_and_then st _ _ ⟨rfl, rfl⟩ cache_keep_shutdown

theorem cache_keep_on_hits (st : exporter_state) (hs : ids) :
    cache_keep st (on_hits st hs) := by
  unfold on_hits
  simp only
  split_ifs <;> exact ⟨rfl, rfl⟩

theorem cache_keep_on_archive_done (st : exporter_state) (sender : Nat) :
    cache_keep st (on_archive_done st sender) := by
  unfold on_archive_done
  simp only
  split_ifs <;> exact ⟨rfl, rfl⟩

theorem cache_keep_on_run_reply (st : exporter_state) (l p s : Nat) :
    cache_keep st (on_run_reply st l p s) := by
  unfold on_run_reply
  simp only
  split_ifs
  · exact ⟨rfl, rfl⟩
  · exact cache_keep_shutdown { st with id := l }

/-- No handler but `handle_batch` touches the predicate or the checker cache. -/
theorem cache_keep_exporter (P : primitives) (st : exporter_state) (e : event)
    (h1 : ∀ s, e ≠ .slice s) (h2 : ∀ s, e ≠ .stream s) :
    cache_keep st (exporter P st e) := by
  cases e with
  | slice s => exact absurd rfl (h1 s)
  | stream s => exact absurd rfl (h2 s)
  | extract_all => exact cache_keep_on_extract_all st
  | extract n => exact cache_keep_on_extract st n
  | archive_done sender err => exact cache_keep_on_archive_done st sender
  | hits hs => exact cache_keep_on_hits st hs
  | done => exact cache_keep_on_done st
  | run_reply l p s => exact cache_keep_on_run_reply st l p s
  | run =>
    simp only [exporter]
    split_ifs <;> exact ⟨rfl, rfl⟩
  | _ => exact ⟨rfl, rfl⟩

/-- What `handle_batch` does to the checker cache: nothing, or it adds the checker
just compiled for a schema that had none. -/
theorem handle_batch_cache (P : primitives) (st : exporter_state) (slice : table_slice) :
    (handle_batch P st slice).st.expr = st.expr ∧
    ((handle_batch P st slice).st.checkers = st.checkers ∨
      (st.checkers.lookup slice.layout = none ∧
        ∃ x, P.tailor st.expr slice.layout = .ok x ∧
          (handle_batch P st slice).st.checkers = (slice.layout, x) :: st.checkers)) := by
  unfold handle_batch
  split_ifs
  · exact ⟨rfl, Or.inl rfl⟩
  · cases hl : st.checkers.lookup slice.layout with
    | some c =>
      simp only
      exact ⟨(cache_keep_check_candidates P st c slice).1,
        Or.inl (cache_keep_check_candidates P st c slice).2⟩
    | none =>
      cases ht : P.tailor st.expr slice.layout with
      | error err =>
        simp only
        have h := cache_keep_and_then st _ _ (cache_keep_ship_results st)
          cache_keep_shutdown
        exact ⟨h.1, Or.inl h.2⟩
      | ok x =>
        simp only
        have h := cache_keep_check_candidates P
          { st with checkers := (slice.layout, x) :: st.checkers } x slice
        exact ⟨h.1, Or.inr ⟨trivial, x, rfl, h.2⟩⟩

theorem lookup_cons_of_absent (cs : List (Nat × Nat)) (t t2 x c : Nat)
    (habsent : cs.lookup t = none) (h : cs.lookup t2 = some c) :
    ((t, x) :: cs).lookup t2 = some c := by
  have hne : t2 ≠ t := by
    rintro rfl
    rw [habsent] at h
    exact absurd h (by simp)
  have hb : (t2 == t) = false := by simpa using hne
  simp only [List.lookup, hb]
  exact h

/-- Every handler keeps the entries of the checker cache, and every entry it adds is
the checker compiled for its schema. -/
theorem exporter_cache (P : primitives) (st : exporter_state) (e : event) :
    (exporter P st e).st.expr = st.expr ∧
    (∀ t c, st.checkers.lookup t = some c →
      (exporter P st e).st.checkers.lookup t = some c) ∧
    ((∀ t c, st.checkers.lookup t = some c → P.tailor st.expr t = .ok c) →
      ∀ t c, (exporter P st e).st.checkers.lookup t = some c →
        P.tailor st.expr t = .ok c) := by
  have hbatch : ∀ slice : table_slice,
      (handle_batch P st slice).st.expr = st.expr ∧
      (∀ t c, st.checkers.lookup t = some c →
        (handle_batch P st slice).st.checkers.lookup t = some c) ∧
      ((∀ t c, st.checkers.lookup t = some c → P.tailor st.expr t = .ok c) →
        ∀ t c, (handle_batch P st slice).st.checkers.lookup t = some c →
          P.tailor st.expr t = .ok c) := by
    intro slice
    obtain ⟨g1, g2⟩ := handle_batch_cache P st slice
    refine ⟨g1, ?_, ?_⟩
    · intro t c h
      rcases g2 with g | ⟨habsent, x, _, g⟩
      · rw [g]; exact h
      · rw [g]; exact lookup_cons_of_absent _ _ _ _ _ habsent h
    · intro hvalid t c h
      rcases g2 with g | ⟨habsent, x, hx, g⟩
      · rw [g] at h; exact hvalid t c h
      · rw [g] at h
        by_cases ht : t = slice.layout
        · subst ht
          simp only [List.lookup, beq_self_eq_true, Option.some.injEq] at h
          subst h
          exact hx
        · have hb : (t == slice.layout) = false := by simpa using ht
          simp only [List.lookup, hb] at h
          exact hvalid t c h
  by_cases hs : ∃ s, e = .slice s
  · obtain ⟨s, rfl⟩ := hs
    exact hbatch s
  · by_cases hs2 : ∃ s, e = .stream s
    · obtain ⟨s, rfl⟩ := hs2
      exact hbatch s
    · obtain ⟨g1, g2⟩ := cache_keep_exporter P st e
        (fun s he => hs ⟨s, he⟩) (fun s he => hs2 ⟨s, he⟩)
      refine ⟨g1, ?_, ?_⟩
      · intro t c h; rw [g2]; exact h
      · intro hvalid t c h; rw [g2] at h; exact hvalid t c h

theorem handle_batch_cached (P P2 : primitives) (st : exporter_state)
    (slice : table_slice) (c : Nat) (hl : st.checkers.lookup slice.layout = some c)
    (hev : P2.evaluate = P.evaluate) :
    handle_batch P2 st slice = handle_batch P st slice := by
  unfold handle_batch
  split_ifs
  · rfl
  · simp only [hl, check_candidates, hev]

theorem handle_batch_inserts (P : primitives) (st : exporter_state)
    (slice : table_slice) (x : Nat) (henc : slice.encoding ≠ .none)
    (hl : st.checkers.lookup slice.layout = none)
    (ht : P.tailor st.expr slice.layout = .ok x) :
    (handle_batch P st slice).st.checkers = (slice.layout, x) :: st.checkers := by
  unfold handle_batch
  rw [if_neg henc]
  simp only [hl, ht]
  exact (cache_keep_check_candidates P
    { st with checkers := (slice.layout, x) :: st.checkers } x slice).2

theorem reachable_cache (P : primitives) (options : query_options) (expr : Nat)
    (w : world) (h : reachable P any_environment (world.start options expr) w) :
    w.exporter.expr = expr ∧
    ∀ t c, w.exporter.checkers.lookup t = some c → P.tailor expr t = .ok c := by
  induction h with
  | start => exact ⟨rfl, fun t c h => absurd h (by simp [world.start, initial_state])⟩
  | @step w e _ _ _ ih =>
    obtain ⟨g1, _, g3⟩ := exporter_cache P w.exporter e
    obtain ⟨i1, i2⟩ := ih
    refine ⟨g1.trans i1, ?_⟩
    intro t c hc
    have := g3 (fun t c h => by rw [i1]; exact i2 t c h) t c hc
    rw [i1] at this
    exact this

/-- C27: in every state reachable from the initial state, each entry of the Checker
Cache maps a schema `t` to the checker that `tailor` compiles from the query predicate
for `t`. In such a state `handle_batch` on a batch whose schema is cached does not
depend on `tailor` and leaves the cache as it is; whenever `handle_batch` changes the
cache the schema was absent, `tailor` succeeded, and the change is the insertion of
that checker, which does happen for every valid batch of an absent schema that
compiles; and no handler, on any message, removes or replaces an entry. -/
theorem checker_cache_lazy (P : primitives) (options : query_options) (expr : Nat)
    (w : world) (h : reachable P any_environment (world.start options expr) w) :
    (w.exporter.expr = expr ∧
      ∀ t c, w.exporter.checkers.lookup t = some c → P.tailor expr t = .ok c) ∧
    (∀ slice c, w.exporter.checkers.lookup slice.layout = some c →
      (∀ P2 : primitives, P2.evaluate = P.evaluate →
        handle_batch P2 w.exporter slice = handle_batch P w.exporter slice) ∧
      (handle_batch P w.exporter slice).st.checkers = w.exporter.checkers) ∧
    (∀ slice, (handle_batch P w.exporter slice).st.checkers ≠ w.exporter.checkers →
      w.exporter.checkers.lookup slice.layout = none ∧
      ∃ x, P.tailor expr slice.layout = .ok x ∧
        (handle_batch P w.exporter slice).st.checkers
          = (slice.layout, x) :: w.exporter.checkers) ∧
    (∀ slice x, slice.encoding ≠ .none →
      w.exporter.checkers.lookup slice.layout = none →
      P.tailor expr slice.layout = .ok x →
      (handle_batch P w.exporter slice).st.checkers
        = (slice.layout, x) :: w.exporter.checkers) ∧
    (∀ e t c, w.exporter.checkers.lookup t = some c →
      (w.step P e).exporter.checkers.lookup t = some c) := by
  obtain ⟨hexpr, hvalid⟩ := reachable_cache P options expr w h
  refine ⟨⟨hexpr, hvalid⟩, ?_, ?_, ?_, ?_⟩
  · intro slice c hl
    refine ⟨fun P2 hev => handle_batch_cached P P2 w.exporter slice c hl hev, ?_⟩
    rcases (handle_batch_cache P w.exporter slice).2 with g | ⟨habsent, _⟩
    · exact g
    · rw [hl] at habsent
      exact absurd habsent (by simp)
  · intro slice hne
    rcases (handle_batch_cache P w.exporter slice).2 with g | ⟨habsent, x, hx, g⟩
    · exact absurd g hne
    · rw [hexpr] at hx
      exact ⟨habsent, x, hx, g⟩
  · intro slice x henc hl ht
    rw [← hexpr] at ht
    exact handle_batch_inserts P w.exporter slice x henc hl ht
  · intro e t c hl
    exact (exporter_cache P w.exporter e).2.1 t c hl

/-- Witness for C27: two batches of schema 7 and one of schema 8 leave one entry per
schema, each holding the checker compiled for that schema. -/
theorem checker_cache_lazy_witness :
    reachable per_schema any_environment (world.start historical_query 100)
      ((world.start historical_query 100).after per_schema schemas_trace) ∧
    ((world.start historical_query 100).after per_schema schemas_trace).exporter.checkers
      = [(8, 108), (7, 107)] ∧
    ∀ t c, ((world.start historical_query 100).after per_schema
        schemas_trace).exporter.checkers.lookup t = some c →
      per_schema.tailor 100 t = .ok c :=
  ⟨reachable_after _ _ _ _ _ reachable.start (by decide!), by decide!,
   (checker_cache_lazy per_schema historical_query 100 _
     (reachable_after _ _ _ _ _ reachable.start (by decide!))).1.2⟩

end vast
